import Mathlib

/-!
Verification of the AtomGL display driver corpus against its natural language
specification.  Each C function relevant to the frozen claims is shallowly
embedded as an executable Lean definition, translated from the source files:

* src/draw_common.h and src/5in65_acep_7c_display_driver.c (namespace Acep):
  the scanline compositor, the 4-bit packed line buffer, the ordered dither
  and 7-color quantizer, and the forced-clear countdown.
* src/memory_display_driver.c (namespace MemLcd): the VCOM polarity toggle
  and the per-scanline mode bytes produced by one update call.
* src/ili948x_display_driver.c (namespace Ili): RGB565 conversion and
  expansion, and the mailbox backpressure policy.
* src/sdl_display/display.c (namespace Sdl): display item comparison, the
  damage diff and rectangle arithmetic of the simulator.
* src/sdl_display/ufontlib.c (namespace UFont): the font container parser.

Machine integers are modelled as Nat (unsigned) or Int (C int); the C
truncating division and remainder on int are Int.tdiv and Int.tmod.  C float
arithmetic in the dither path is modelled over the exact rationals; every
comparison the claims depend on separates an exact zero from a strictly
positive quantity, so exact arithmetic decides the same branches.
Fallible C functions returning NULL are modelled with Option.
-/

set_option maxRecDepth 100000

namespace AtomGL

/-! ## Shared byte-level helpers -/

/-- Bytes of a uint8 line buffer, addressed by byte index.  C buffers are
fixed arrays; the model is a total map, the theorems carry the byte bound. -/
def Buf : Type := Nat → Nat

namespace Acep

/-! ## 7-color ordered dither and quantizer
    (src/5in65_acep_7c_display_driver.c lines 88-136) -/

/-- The 4x4 Bayer matrix m of dither_acep7; the source indexes it as
m[x % 4][y % 4]. -/
def bayerM : Nat → Nat → Nat
  | 0, 0 => 0 | 0, 1 => 8 | 0, 2 => 2 | 0, 3 => 10
  | 1, 0 => 12 | 1, 1 => 4 | 1, 2 => 14 | 1, 3 => 6
  | 2, 0 => 3 | 2, 1 => 11 | 2, 2 => 1 | 2, 3 => 9
  | 3, 0 => 15 | 3, 1 => 7 | 3, 2 => 13 | 3, 3 => 5
  | _, _ => 0

/-- roundf of C99 on an exact rational: round half away from zero. -/
def roundfQ (q : ℚ) : ℤ := if 0 ≤ q then ⌊q + 1/2⌋ else -⌊-q + 1/2⌋

/-- Per-channel dither offset: roundf (w * (m * 0.0625 - 0.5)) for channel
weight w (92, 85 or 65) and Bayer matrix value m. -/
def ditherChannel (w : ℚ) (mv : Nat) : ℤ := roundfQ (w * ((mv : ℚ) * (1/16) - 1/2))

/-- The 7 palette entries of the colors array in dither_acep7 (the saturated
revision used by the ACEP driver). -/
def acepColors : List (Nat × Nat × Nat) :=
  [(0x00, 0x00, 0x00), (0xFF, 0xFF, 0xFF), (0x00, 0xFF, 0x00), (0x00, 0x00, 0xFF),
   (0xFF, 0x00, 0x00), (0xFF, 0xFF, 0x00), (0xFF, 0x80, 0x00)]

/-- Weighted squared distance of a palette entry to the dithered channels:
square((r2-r1)*0.30) + square((g2-g1)*0.59) + square((b2-b1)*0.11). -/
def wdist (c : Nat × Nat × Nat) (r1 g1 b1 : ℤ) : ℚ :=
  (((c.1 : ℚ) - (r1 : ℚ)) * (30/100))^2 + (((c.2.1 : ℚ) - (g1 : ℚ)) * (59/100))^2
    + (((c.2.2 : ℚ) - (b1 : ℚ)) * (11/100))^2

/-- Initial value of the running minimum: float min = INT_MAX.  (On the
target the int-to-float conversion rounds to 2^31; the scan only needs an
upper sentinel strictly above every reachable distance, which both values
are, so the exact constant is immaterial.) -/
def cINT_MAX : ℚ := 2147483647

/-- The selection loop of dither_acep7 and closest: scan the distance list,
keeping the index of the first strictly smaller distance (ties keep the
earlier entry, because the comparison is d < min). -/
def minScan : List ℚ → ℚ → Nat → Nat → Nat
  | [], _, mi, _ => mi
  | d :: rest, mn, mi, i => if d < mn then minScan rest d i (i + 1) else minScan rest mn mi (i + 1)

/-- dither_acep7: apply the per-channel Bayer offset to (r, g, b), then
return the index of the nearest of the 7 palette colors. -/
def dither_acep7 (x y : Nat) (r g b : Nat) : Nat :=
  let mv := bayerM (x % 4) (y % 4)
  let r1 : ℤ := (r : ℤ) + ditherChannel 92 mv
  let g1 : ℤ := (g : ℤ) + ditherChannel 85 mv
  let b1 : ℤ := (b : ℤ) + ditherChannel 65 mv
  minScan (acepColors.map (fun c => wdist c r1 g1 b1)) cINT_MAX 0 0

/-! ## Packed 4-bit line buffer (src/5in65_acep_7c_display_driver.c 164-178) -/

/-- DISPLAY_WIDTH of the ACEP driver. -/
def acepWidth : Nat := 600

/-- draw_pixel_x: write 4-bit color c at pixel xpos of the packed line
buffer.  The CHECK_OVERFLOW guard of the source tests xpos > DISPLAY_WIDTH
(not >=), which is preserved verbatim here. -/
def draw_pixel_x (line_buf : Buf) (xpos : Nat) (c : Nat) : Buf :=
  if acepWidth < xpos then line_buf
  else fun i =>
    if i = xpos / 2 then
      if xpos % 2 = 0 then (line_buf (xpos / 2) &&& 0xF) ||| (c <<< 4)
      else (line_buf (xpos / 2) &&& 0xF0) ||| c
    else line_buf i

/-- The 4-bit pixel value stored at pixel position x of a packed buffer:
high nibble of byte x/2 at even x, low nibble at odd x. -/
def nibbleAt (buf : Buf) (x : Nat) : Nat :=
  if x % 2 = 0 then buf (x / 2) / 16 % 16 else buf (x / 2) % 16

/-! ## Display items (src/display_items.h) -/

/-- enum primitive of display_items.h. -/
inductive Primitive
  | Invalid
  | Image
  | ScaledCroppedImage
  | Rect
  | Text
deriving DecidableEq

/-- struct BaseDisplayItem of display_items.h, with the union flattened.
Binary image data is modelled as a total map from the linear 32-bit-pixel
offset to the rgba8888 value READ_32_UNALIGNED yields there (r in the high
byte, alpha in the low byte); the text pointer as a map from byte index to
the byte stored there.  Out-of-range C reads are undefined behavior; the
total maps stand for whatever bytes sit at those addresses. -/
structure BaseDisplayItem where
  primitive : Primitive
  x : ℤ
  y : ℤ
  width : ℤ
  height : ℤ
  brcolor : Nat
  pix : ℤ → Nat
  imgWidth : ℤ
  imgHeight : ℤ
  sourceX : ℤ
  sourceY : ℤ
  xScale : ℤ
  yScale : ℤ
  fgcolor : Nat
  text : ℤ → Nat

/-! ## Item pixel functions (src/5in65_acep_7c_display_driver.c 180-393)

Each C drawing loop `for (int j = xpos - x; j < width; j++)` is embedded as
a structural recursion on the remaining iteration count
fuel = (width - (xpos - x)).toNat, with the loop counter recovered as
j = (xpos - x) + drawn; the functions return the final buffer and the value
of drawn_pixels.  xpos and ypos are Nat because every call site iterates
them from 0 (the C type is int). -/

/-- Loop body of draw_image_x: the source pixel pointer starts at
data + (ypos - y) * width + (xpos - x) and advances by one each iteration
(offset baseOff + drawn).  The source tests the alpha byte as
(*pixels >> 24) & 0xFF: a raw little-endian load whose top byte is the
trailing alpha byte of the big-endian rgba8888 pixel, hence px &&& 0xFF. -/
def drawImageLoop (pix : ℤ → Nat) (baseOff : ℤ) (visibleBg : Bool) (br bg bb : Nat)
    (xpos ypos : Nat) : Nat → Buf → Nat → Buf × Nat
  | 0, buf, drawn => (buf, drawn)
  | fuel + 1, buf, drawn =>
    let px := pix (baseOff + (drawn : ℤ))
    if px &&& 0xFF ≠ 0 then
      let c := dither_acep7 (xpos + drawn) ypos ((px >>> 24) % 256) ((px >>> 16) &&& 0xFF)
        ((px >>> 8) &&& 0xFF)
      drawImageLoop pix baseOff visibleBg br bg bb xpos ypos fuel
        (draw_pixel_x buf (xpos + drawn) c) (drawn + 1)
    else if visibleBg then
      let c := dither_acep7 (xpos + drawn) ypos br bg bb
      drawImageLoop pix baseOff visibleBg br bg bb xpos ypos fuel
        (draw_pixel_x buf (xpos + drawn) c) (drawn + 1)
    else (buf, drawn)

/-- draw_image_x (ACEP instantiation). -/
def draw_image_x (buf : Buf) (xpos ypos : Nat) (max_line_len : ℤ)
    (item : BaseDisplayItem) : Buf × Nat :=
  let j0 : ℤ := (xpos : ℤ) - item.x
  let visibleBg := item.brcolor ≠ 0
  let br := if item.brcolor ≠ 0 then (item.brcolor >>> 24) &&& 0xFF else 0
  let bg := if item.brcolor ≠ 0 then (item.brcolor >>> 16) &&& 0xFF else 0
  let bb := if item.brcolor ≠ 0 then (item.brcolor >>> 8) &&& 0xFF else 0
  let baseOff := ((ypos : ℤ) - item.y) * item.width + j0
  let width := if item.width > j0 + max_line_len then j0 + max_line_len else item.width
  drawImageLoop item.pix baseOff visibleBg br bg bb xpos ypos (width - j0).toNat buf 0

/-- Loop body of draw_scaled_cropped_img_x.  The source recomputes the pixel
pointer at the end of each iteration from the current loop counter j and
increments j afterwards, so iteration j+1 reads the offset computed from j;
the current offset is therefore threaded through the recursion. -/
def drawScaledLoop (pix : ℤ → Nat) (rowBase sourceX xScale j0 : ℤ) (visibleBg : Bool)
    (br bg bb : Nat) (xpos ypos : Nat) : Nat → ℤ → Buf → Nat → Buf × Nat
  | 0, _, buf, drawn => (buf, drawn)
  | fuel + 1, curOff, buf, drawn =>
    let px := pix curOff
    let nextOff := rowBase + sourceX + Int.tdiv (j0 + (drawn : ℤ)) xScale
    if px &&& 0xFF ≠ 0 then
      let c := dither_acep7 (xpos + drawn) ypos ((px >>> 24) % 256) ((px >>> 16) &&& 0xFF)
        ((px >>> 8) &&& 0xFF)
      drawScaledLoop pix rowBase sourceX xScale j0 visibleBg br bg bb xpos ypos fuel nextOff
        (draw_pixel_x buf (xpos + drawn) c) (drawn + 1)
    else if visibleBg then
      let c := dither_acep7 (xpos + drawn) ypos br bg bb
      drawScaledLoop pix rowBase sourceX xScale j0 visibleBg br bg bb xpos ypos fuel nextOff
        (draw_pixel_x buf (xpos + drawn) c) (drawn + 1)
    else (buf, drawn)

/-- draw_scaled_cropped_img_x (ACEP instantiation).  C int division
truncates toward zero (Int.tdiv). -/
def draw_scaled_cropped_img_x (buf : Buf) (xpos ypos : Nat) (max_line_len : ℤ)
    (item : BaseDisplayItem) : Buf × Nat :=
  let j0 : ℤ := (xpos : ℤ) - item.x
  let visibleBg := item.brcolor ≠ 0
  let br := if item.brcolor ≠ 0 then (item.brcolor >>> 24) &&& 0xFF else 0
  let bg := if item.brcolor ≠ 0 then (item.brcolor >>> 16) &&& 0xFF else 0
  let bb := if item.brcolor ≠ 0 then (item.brcolor >>> 8) &&& 0xFF else 0
  let rowBase := (item.sourceY + Int.tdiv ((ypos : ℤ) - item.y) item.yScale) * item.imgWidth
  let off0 := rowBase + item.sourceX + Int.tdiv j0 item.xScale
  let width1 := if item.sourceX + Int.tdiv item.width item.xScale > item.imgWidth
    then (item.imgWidth - item.sourceX) * item.xScale else item.width
  let width2 := if width1 > j0 + max_line_len then j0 + max_line_len else width1
  drawScaledLoop item.pix rowBase item.sourceX item.xScale j0 visibleBg br bg bb xpos ypos
    (width2 - j0).toNat off0 buf 0

/-- Loop body of draw_rect_x: every pixel of the run is dithered from the
bounding rect color. -/
def drawRectLoop (r g b : Nat) (xpos ypos : Nat) : Nat → Buf → Nat → Buf × Nat
  | 0, buf, drawn => (buf, drawn)
  | fuel + 1, buf, drawn =>
    drawRectLoop r g b xpos ypos fuel
      (draw_pixel_x buf (xpos + drawn) (dither_acep7 (xpos + drawn) ypos r g b)) (drawn + 1)

/-- draw_rect_x (ACEP instantiation). -/
def draw_rect_x (buf : Buf) (xpos ypos : Nat) (max_line_len : ℤ)
    (item : BaseDisplayItem) : Buf × Nat :=
  let j0 : ℤ := (xpos : ℤ) - item.x
  let r := (item.brcolor >>> 24) &&& 0xFF
  let g := (item.brcolor >>> 16) &&& 0xFF
  let b := (item.brcolor >>> 8) &&& 0xFF
  let width := if item.width > j0 + max_line_len then j0 + max_line_len else item.width
  drawRectLoop r g b xpos ypos (width - j0).toNat buf 0

/-- Loop body of draw_text_x: font is the fontdata byte array of font.c
(not part of src/, so kept abstract as a byte map that both the embedding
and its specification share); loop counter j = j0 + drawn selects character
j / 8 and glyph column j % 8. -/
def drawTextLoop (font : ℤ → Nat) (text : ℤ → Nat) (j0 rowIdx : ℤ) (visibleBg : Bool)
    (fr fg fb br bg bb : Nat) (xpos ypos : Nat) : Nat → Buf → Nat → Buf × Nat
  | 0, buf, drawn => (buf, drawn)
  | fuel + 1, buf, drawn =>
    let j := j0 + (drawn : ℤ)
    let ch := text (Int.tdiv j 8)
    let row := font ((ch : ℤ) * 16 + rowIdx)
    let k := Int.tmod j 8
    if row &&& (1 <<< (7 - k).toNat) ≠ 0 then
      let c := dither_acep7 (xpos + drawn) ypos fr fg fb
      drawTextLoop font text j0 rowIdx visibleBg fr fg fb br bg bb xpos ypos fuel
        (draw_pixel_x buf (xpos + drawn) c) (drawn + 1)
    else if visibleBg then
      let c := dither_acep7 (xpos + drawn) ypos br bg bb
      drawTextLoop font text j0 rowIdx visibleBg fr fg fb br bg bb xpos ypos fuel
        (draw_pixel_x buf (xpos + drawn) c) (drawn + 1)
    else (buf, drawn)

/-- draw_text_x (ACEP instantiation). -/
def draw_text_x (font : ℤ → Nat) (buf : Buf) (xpos ypos : Nat) (max_line_len : ℤ)
    (item : BaseDisplayItem) : Buf × Nat :=
  let j0 : ℤ := (xpos : ℤ) - item.x
  let visibleBg := item.brcolor ≠ 0
  let fr := (item.fgcolor >>> 24) &&& 0xFF
  let fg := (item.fgcolor >>> 16) &&& 0xFF
  let fb := (item.fgcolor >>> 8) &&& 0xFF
  let br := if item.brcolor ≠ 0 then (item.brcolor >>> 24) &&& 0xFF else 0
  let bg := if item.brcolor ≠ 0 then (item.brcolor >>> 16) &&& 0xFF else 0
  let bb := if item.brcolor ≠ 0 then (item.brcolor >>> 8) &&& 0xFF else 0
  let width := if item.width > j0 + max_line_len then j0 + max_line_len else item.width
  drawTextLoop font item.text j0 ((ypos : ℤ) - item.y) visibleBg fr fg fb br bg bb xpos ypos
    (width - j0).toNat buf 0

/-! ## Compositor (src/draw_common.h 29-92) -/

/-- The bounding-box test of draw_x: the item is skipped when
xpos < x or xpos >= x + width or ypos < y or ypos >= y + height. -/
def coversB (item : BaseDisplayItem) (xpos ypos : Nat) : Bool :=
  ¬((xpos : ℤ) < item.x ∨ (xpos : ℤ) ≥ item.x + item.width
    ∨ (ypos : ℤ) < item.y ∨ (ypos : ℤ) ≥ item.y + item.height)

/-- find_max_line_len: the run from xpos may extend to the screen edge
(DISPLAY_WIDTH - xpos) but is cut before the left edge of any
higher-priority item (the first count items) starting to the right of xpos
on this row. -/
def find_max_line_len (items : List BaseDisplayItem) (xpos ypos : Nat) : ℤ :=
  items.foldl
    (fun line_len item =>
      if (xpos : ℤ) < item.x ∧ (ypos : ℤ) ≥ item.y ∧ (ypos : ℤ) < item.y + item.height then
        if line_len > item.x - (xpos : ℤ) then item.x - (xpos : ℤ) else line_len
      else line_len)
    ((acepWidth : ℤ) - (xpos : ℤ))

/-- Dispatch of the switch statement in draw_x; the default case reports an
unexpected command and leaves drawn_pixels at 0. -/
def drawPrim (font : ℤ → Nat) (buf : Buf) (xpos ypos : Nat) (max_line_len : ℤ)
    (item : BaseDisplayItem) : Buf × Nat :=
  match item.primitive with
  | .Image => draw_image_x buf xpos ypos max_line_len item
  | .ScaledCroppedImage => draw_scaled_cropped_img_x buf xpos ypos max_line_len item
  | .Rect => draw_rect_x buf xpos ypos max_line_len item
  | .Text => draw_text_x font buf xpos ypos max_line_len item
  | .Invalid => (buf, 0)

/-- The item scan of draw_x: seen holds the items already passed (the
prefix handed to find_max_line_len), below records whether some covering
item already failed to produce a pixel (forcing run length 1). -/
def drawXAux (font : ℤ → Nat) (xpos ypos : Nat) :
    List BaseDisplayItem → List BaseDisplayItem → Bool → Buf → Buf × Nat
  | _, [], _, buf => (buf, 1)
  | seen, item :: rest, below, buf =>
    if coversB item xpos ypos then
      let mll := if below then 1 else find_max_line_len seen xpos ypos
      let r := drawPrim font buf xpos ypos mll item
      if r.2 ≠ 0 then r
      else drawXAux font xpos ypos (seen ++ [item]) rest true r.1
    else drawXAux font xpos ypos (seen ++ [item]) rest below buf

/-- draw_x (src/draw_common.h 45-92): draw at least one pixel at (xpos, ypos)
from the first covering item that produces one, and return how many pixels
were drawn (1 when nothing was drawn). -/
def draw_x (font : ℤ → Nat) (buf : Buf) (xpos ypos : Nat)
    (items : List BaseDisplayItem) : Buf × Nat :=
  drawXAux font xpos ypos [] items false buf

/-- Specification-side per-item pixel: the value the first loop iteration of
the matching item draw function produces at (xpos, ypos), or none when the
item does not cover the coordinate or is transparent there.  The expressions
are read off the first iteration of each source loop. -/
def itemPixelAt (font : ℤ → Nat) (xpos ypos : Nat) (item : BaseDisplayItem) : Option Nat :=
  if coversB item xpos ypos then
    match item.primitive with
    | .Rect =>
      some (dither_acep7 xpos ypos ((item.brcolor >>> 24) &&& 0xFF)
        ((item.brcolor >>> 16) &&& 0xFF) ((item.brcolor >>> 8) &&& 0xFF))
    | .Image =>
      let px := item.pix (((ypos : ℤ) - item.y) * item.width + ((xpos : ℤ) - item.x))
      if px &&& 0xFF ≠ 0 then
        some (dither_acep7 xpos ypos ((px >>> 24) % 256) ((px >>> 16) &&& 0xFF)
          ((px >>> 8) &&& 0xFF))
      else if item.brcolor ≠ 0 then
        some (dither_acep7 xpos ypos ((item.brcolor >>> 24) &&& 0xFF)
          ((item.brcolor >>> 16) &&& 0xFF) ((item.brcolor >>> 8) &&& 0xFF))
      else none
    | .ScaledCroppedImage =>
      let j0 : ℤ := (xpos : ℤ) - item.x
      let width1 := if item.sourceX + Int.tdiv item.width item.xScale > item.imgWidth
        then (item.imgWidth - item.sourceX) * item.xScale else item.width
      if j0 < width1 then
        let px := item.pix ((item.sourceY + Int.tdiv ((ypos : ℤ) - item.y) item.yScale)
          * item.imgWidth + item.sourceX + Int.tdiv j0 item.xScale)
        if px &&& 0xFF ≠ 0 then
          some (dither_acep7 xpos ypos ((px >>> 24) % 256) ((px >>> 16) &&& 0xFF)
            ((px >>> 8) &&& 0xFF))
        else if item.brcolor ≠ 0 then
          some (dither_acep7 xpos ypos ((item.brcolor >>> 24) &&& 0xFF)
            ((item.brcolor >>> 16) &&& 0xFF) ((item.brcolor >>> 8) &&& 0xFF))
        else none
      else none
    | .Text =>
      let j : ℤ := (xpos : ℤ) - item.x
      let ch := item.text (Int.tdiv j 8)
      let row := font ((ch : ℤ) * 16 + ((ypos : ℤ) - item.y))
      if row &&& (1 <<< (7 - Int.tmod j 8).toNat) ≠ 0 then
        some (dither_acep7 xpos ypos ((item.fgcolor >>> 24) &&& 0xFF)
          ((item.fgcolor >>> 16) &&& 0xFF) ((item.fgcolor >>> 8) &&& 0xFF))
      else if item.brcolor ≠ 0 then
        some (dither_acep7 xpos ypos ((item.brcolor >>> 24) &&& 0xFF)
          ((item.brcolor >>> 16) &&& 0xFF) ((item.brcolor >>> 8) &&& 0xFF))
      else none
    | .Invalid => none
  else none

/-! ## Scanline loop and forced clear (src/5in65_acep_7c_display_driver.c
    419-430, 474-488, 693-699) -/

/-- The inner rasterization loop of do_update for one scanline:
while (xpos < screen_width) xpos += draw_x(...).  The explicit fuel bounds
the number of draw_x calls; the termination theorem shows fuel
screen_width always suffices.  Returns the buffer, the number of draw_x
calls made, and whether the loop ran to completion. -/
def rasterLineAux (font : ℤ → Nat) (items : List BaseDisplayItem) (ypos : Nat) :
    Nat → Buf → Nat → Buf × Nat × Bool
  | fuel, buf, xpos =>
    if xpos < acepWidth then
      match fuel with
      | 0 => (buf, 0, false)
      | fuel + 1 =>
        let r := draw_x font buf xpos ypos items
        let res := rasterLineAux font items ypos fuel r.1 (xpos + r.2)
        (res.1, res.2.1 + 1, res.2.2)
    else (buf, 0, true)

/-- One scanline of do_update, given fuel screen_width. -/
def rasterLine (font : ℤ → Nat) (items : List BaseDisplayItem) (ypos : Nat)
    (buf : Buf) : Buf × Nat × Bool :=
  rasterLineAux font items ypos acepWidth buf 0

/-- maybe_refresh: decrement count_to_refresh; when it reaches 0 or below,
do a full clear (first component true) and reset the counter to 5. -/
def maybe_refresh (count_to_refresh : ℤ) : Bool × ℤ :=
  let c := count_to_refresh - 1
  if c ≤ 0 then (true, 5) else (false, c)

/-- count_to_refresh after k update calls; display_spi_init sets it to 0. -/
def refreshState : Nat → ℤ
  | 0 => 0
  | k + 1 => (maybe_refresh (refreshState k)).2

/-- The all-zero font used by the compositor witness. -/
def exFont0 : ℤ → Nat := fun _ => 0

/-- A line buffer freshly memset to 0x11 as in do_update. -/
def exBuf0 : Buf := fun _ => 0x11

/-- A fully transparent 4x4 Image item (alpha 0 everywhere, transparent
background) used by the compositor witness. -/
def exImgTransparent : BaseDisplayItem :=
  { primitive := .Image, x := 0, y := 0, width := 4, height := 4, brcolor := 0,
    pix := fun _ => 0, imgWidth := 0, imgHeight := 0, sourceX := 0, sourceY := 0,
    xScale := 1, yScale := 1, fgcolor := 0, text := fun _ => 0 }

/-- An opaque green 4x4 Rect item listed after the transparent image in the
compositor witness. -/
def exRectGreen : BaseDisplayItem :=
  { primitive := .Rect, x := 0, y := 0, width := 4, height := 4, brcolor := 0x00FF00FF,
    pix := fun _ => 0, imgWidth := 0, imgHeight := 0, sourceX := 0, sourceY := 0,
    xScale := 1, yScale := 1, fgcolor := 0, text := fun _ => 0 }

end Acep

namespace MemLcd

/-! ## Memory LCD VCOM toggle (src/memory_display_driver.c 110-121, 387-422) -/

/-- get_vcom: return the current value of the module-level vcom variable
(0 or 0x2) and flip it. -/
def get_vcom (vcom : Nat) : Nat × Nat :=
  (vcom, if vcom = 0 then 0x2 else 0)

/-- The mode bytes buf[0] = 0x1 | get_vcom() transmitted by the scanline
loop of do_update, one per line, together with the final vcom state; the
source calls get_vcom once per scanline inside the for loop over ypos. -/
def updateModeBytes : Nat → Nat → List Nat × Nat
  | 0, vcom => ([], vcom)
  | n + 1, vcom =>
    let g := get_vcom vcom
    let rest := updateModeBytes n g.2
    ((0x1 ||| g.1) :: rest.1, rest.2)

/-- screen->h of the memory LCD driver (display_init hardcodes 240). -/
def memLcdHeight : Nat := 240

/-- The mode bytes of one whole update call (240 scanlines) and the vcom
state left for the next call. -/
def memlcd_update (vcom : Nat) : List Nat × Nat := updateModeBytes memLcdHeight vcom

end MemLcd

namespace Ili

/-! ## RGB565 conversion (src/ili948x_display_driver.c 157-200) -/

/-- rgba8888_color_to_rgb565: truncate each 8-bit channel of the rgba8888
color (r in the high byte) to 5/6/5 bits; the uint8_t casts of the source
are the % 256 / mask operations. -/
def rgba8888_color_to_rgb565 (color : Nat) : Nat :=
  let r := (color >>> 24) % 256
  let g := (color >>> 16) &&& 0xFF
  let b := (color >>> 8) &&& 0xFF
  ((r >>> 3) <<< 11) ||| ((g >>> 2) <<< 5) ||| (b >>> 3)

/-- The per-pixel expansion of rgb565swapped_line_to_rgb888 (after the SPI
byte-order unswap): split a RGB565 word and replicate the top bits of each
channel into its low bits to rebuild 8-bit channels. -/
def expand565 (px : Nat) : Nat × Nat × Nat :=
  let r5 := (px >>> 11) &&& 0x1F
  let g6 := (px >>> 5) &&& 0x3F
  let b5 := (px >>> 0) &&& 0x1F
  (((r5 <<< 3) ||| (r5 >>> 2)), ((g6 <<< 2) ||| (g6 >>> 4)), ((b5 <<< 3) ||| (b5 >>> 2)))

/-! ## Mailbox backpressure (src/ili948x_display_driver.c 688-711) -/

/-- display_driver_consume_mailbox acting on the bounded worker queue
(xQueueCreate capacity cap): a non-blocking send fails exactly when the
queue is full; on failure the oldest message is received and disposed and
the send is retried; if it still fails the new message itself is disposed.
Returns the new queue and the disposed messages in disposal order. -/
def consumeMailbox (cap : Nat) (q : List Nat) (msg : Nat) : List Nat × List Nat :=
  if q.length < cap then (q ++ [msg], [])
  else
    match q with
    | [] =>
      -- receive from an empty queue fails, so nothing is disposed there
      if 0 < cap then ([msg], []) else ([], [msg])
    | old :: rest =>
      if rest.length < cap then (rest ++ [msg], [old]) else (rest, [old, msg])

end Ili

namespace Sdl

/-! ## Simulator display items and damage diff (src/sdl_display/display.c) -/

/-- enum primitive of the simulator (no ScaledCroppedImage there). -/
inductive SdlPrimitive
  | Invalid
  | Image
  | Rect
  | Text
deriving DecidableEq

/-- struct BaseDisplayItem of display.c; image data is compared by pointer
identity in cmp_display_item, so pix is the pointer value; text is compared
by strcmp, so it is the byte content. -/
structure BaseDisplayItem where
  primitive : SdlPrimitive
  x : ℤ
  y : ℤ
  width : ℤ
  height : ℤ
  brcolor : Nat
  pix : Nat
  fgcolor : Nat
  text : List Nat
deriving DecidableEq

/-- struct Rectangle of display.c. -/
structure Rectangle where
  x : ℤ
  y : ℤ
  width : ℤ
  height : ℤ
  valid : Bool
deriving DecidableEq

/-- int_min of display.c. -/
def int_min (a b : ℤ) : ℤ := if a > b then b else a

/-- int_max of display.c. -/
def int_max (a b : ℤ) : ℤ := if a > b then a else b

/-- cmp_display_item: structural equality of geometry and colors, pointer
identity for image data, deep content equality for text. -/
def cmp_display_item (a b : BaseDisplayItem) : Bool :=
  if a.primitive ≠ b.primitive ∨ a.x ≠ b.x ∨ a.y ≠ b.y ∨ a.width ≠ b.width
      ∨ a.height ≠ b.height ∨ a.brcolor ≠ b.brcolor then false
  else
    match a.primitive with
    | .Image => a.pix == b.pix
    | .Rect => true
    | .Text => a.fgcolor == b.fgcolor && a.text == b.text
    | _ => true

/-- update_damaged_area; the source assigns the new x and y before computing
width and height, so the extents are measured from the updated corner. -/
def update_damaged_area (area damage : Rectangle) : Rectangle :=
  if area.valid then
    let nx := int_min area.x damage.x
    let ny := int_min area.y damage.y
    let nw := int_max (nx + area.width) (damage.x + damage.width) - nx
    let nh := int_max (ny + area.height) (damage.y + damage.height) - ny
    ⟨nx, ny, nw, nh, true⟩
  else ⟨damage.x, damage.y, damage.width, damage.height, true⟩

/-- clip_rectangle; as in the source, width and height are recomputed from
the already-clipped corner. -/
def clip_rectangle (r clip : Rectangle) : Rectangle :=
  let nx := int_max r.x clip.x
  let ny := int_max r.y clip.y
  let nw := int_min (nx + r.width) (clip.x + clip.width) - nx
  let nh := int_min (ny + r.height) (clip.y + clip.height) - ny
  ⟨nx, ny, nw, nh, r.valid⟩

/-- The bounding rectangle of an item, as built at each damage site. -/
def rectOf (it : BaseDisplayItem) : Rectangle := ⟨it.x, it.y, it.width, it.height, true⟩

/-- Stand-in for the out-of-bounds orig[j] read the C code performs when j
runs past the original list; unreachable in the verified scenarios. -/
def dummyItem : BaseDisplayItem := ⟨.Invalid, 0, 0, 0, 0, 0, 0, 0, []⟩

/-- The inner hunt of dumb_diff: find the first k in [start, orig_len) with
cmp_display_item(new_i, orig[k]). -/
def findForward (orig : List BaseDisplayItem) (it : BaseDisplayItem) (start : Nat) : Option Nat :=
  (List.range' start (orig.length - start)).find?
    (fun k => cmp_display_item it (orig.getD k dummyItem))

/-- The damage additions of the matched-later branch:
for (l = k - j; l < k; l++) add the box of orig[l]. -/
def addRange (orig : List BaseDisplayItem) (lstart k : Nat) (damaged : Rectangle) : Rectangle :=
  (List.range' lstart (k - lstart)).foldl
    (fun d l => update_damaged_area d (rectOf (orig.getD l dummyItem))) damaged

/-- Main scan of dumb_diff over the new list, with j the running index into
the original list. -/
def dumbDiffAux (orig : List BaseDisplayItem) :
    List BaseDisplayItem → Nat → Rectangle → Rectangle
  | [], _, damaged => damaged
  | it :: rest, j, damaged =>
    if cmp_display_item it (orig.getD j dummyItem) then dumbDiffAux orig rest (j + 1) damaged
    else
      match findForward orig it (j + 1) with
      | some k => dumbDiffAux orig rest (k + 1) (addRange orig (k - j) k damaged)
      | none => dumbDiffAux orig rest j (update_damaged_area damaged (rectOf it))

/-- dumb_diff (src/sdl_display/display.c 181-234). -/
def dumb_diff (orig new : List BaseDisplayItem) (damaged : Rectangle) : Rectangle :=
  if orig.length = 0 then
    new.foldl (fun d it => update_damaged_area d (rectOf it)) damaged
  else dumbDiffAux orig new 0 damaged

/-- The initial damaged rectangle of do_update: only valid = false is set;
the coordinate fields are uninitialized in C and never read before being
assigned, 0 here. -/
def emptyDamage : Rectangle := ⟨0, 0, 0, 0, false⟩

/-- The whole-screen clip rectangle of do_update. -/
def screenRect (w h : ℤ) : Rectangle := ⟨0, 0, w, h, true⟩

/-- The damage region do_update computes (src/sdl_display/display.c
586-630): none when the diff reports no damage (update skipped), otherwise
the damage rectangle clipped to the screen; the raster loops take their
scanlines and run start columns from this rectangle (a draw_x run may still
write past its right edge, capped by item and screen width). -/
def do_update_region (w h : ℤ) (prev new : List BaseDisplayItem) : Option Rectangle :=
  let damaged := dumb_diff prev new emptyDamage
  if damaged.valid then some (clip_rectangle damaged (screenRect w h)) else none

/-- Item A of the damage-diff counterexample. -/
def exA : BaseDisplayItem := ⟨.Rect, 0, 0, 10, 10, 5, 0, 0, []⟩

/-- Item B of the damage-diff counterexample (present only in the previous
list). -/
def exB : BaseDisplayItem := ⟨.Rect, 20, 0, 5, 5, 6, 0, 0, []⟩

/-- Item C of the damage-diff counterexample (present only in the new list,
disjoint from B). -/
def exC : BaseDisplayItem := ⟨.Rect, 100, 100, 5, 5, 7, 0, 0, []⟩

end Sdl

namespace UFont

/-! ## Font container parser (src/sdl_display/ufontlib.c 554-612) -/

/-- Byte at index i of the container (0 past the end, standing for the
unspecified bytes an out-of-range C read would return). -/
def byteAt (data : List Nat) (i : Nat) : Nat := data.getD i 0

/-- UF_ENDIAN_SWAP_32 applied to the 32-bit little-endian load at offset i
is a big-endian read of the four bytes. -/
def read32BE (data : List Nat) (i : Nat) : Nat :=
  byteAt data i * 2 ^ 24 + byteAt data (i + 1) * 2 ^ 16 + byteAt data (i + 2) * 2 ^ 8
    + byteAt data (i + 3)

/-- ufont_iff_is_valid_ufl: memcmp(iff, "UFL0", 4) == 0, i.e. the first
four bytes are 0x55 0x46 0x4C 0x30. -/
def ufont_iff_is_valid_ufl (data : List Nat) : Bool :=
  byteAt data 0 = 0x55 ∧ byteAt data 1 = 0x46 ∧ byteAt data 2 = 0x4C ∧ byteAt data 3 = 0x30

/-- ufont_iff_align: ((size + 4 - 1) >> 2) << 2. -/
def ufont_iff_align (size : Nat) : Nat := ((size + 4 - 1) >>> 2) <<< 2

/-- The record scan (do-while loop) of ufont_parse: at each record offset,
read the 4-byte type name and remember the payload offset of the uFH0,
uFP0, uFI0 and uFB0 records; advance by the aligned record size until the
position passes the declared file size.  The fuel is an upper bound on the
iteration count (each step advances by at least 8). -/
def ufontScan (data : List Nat) (file_size : Nat) :
    Nat → Nat → Option Nat × Option Nat × Option Nat × Option Nat →
    Option Nat × Option Nat × Option Nat × Option Nat
  | 0, _, acc => acc
  | fuel + 1, pos, acc =>
    let name := [byteAt data pos, byteAt data (pos + 1), byteAt data (pos + 2),
      byteAt data (pos + 3)]
    let acc2 :=
      if name = [0x75, 0x46, 0x48, 0x30] then (some (pos + 8), acc.2.1, acc.2.2.1, acc.2.2.2)
      else if name = [0x75, 0x46, 0x50, 0x30] then (acc.1, some (pos + 8), acc.2.2.1, acc.2.2.2)
      else if name = [0x75, 0x46, 0x49, 0x30] then (acc.1, acc.2.1, some (pos + 8), acc.2.2.2)
      else if name = [0x75, 0x46, 0x42, 0x30] then (acc.1, acc.2.1, acc.2.2.1, some (pos + 8))
      else acc
    let pos2 := pos + ufont_iff_align (read32BE data (pos + 4) + 8)
    if pos2 < file_size then ufontScan data file_size fuel pos2 acc2 else acc2

/-- ufont_parse (src/sdl_display/ufontlib.c 570-612): none models returning
NULL.  On success the four collected record-payload offsets are returned;
the final ufont_load_font of the source unconditionally builds a font
object from them (dereferencing a NULL header pointer if the uFH0 record
was absent), which the claims do not depend on.  The guard on the first
line is the verbatim source condition: parsing is rejected when the magic
IS valid. -/
def ufont_parse (data : List Nat) (buf_size : Nat) :
    Option (Option Nat × Option Nat × Option Nat × Option Nat) :=
  if ufont_iff_is_valid_ufl data then none
  else
    let file_size := read32BE data 4
    if buf_size < file_size then none
    else some (ufontScan data file_size (file_size + 1) 12 (none, none, none, none))

/-- A well-formed 32-byte font container: magic "UFL0", declared size 32,
4 filler bytes, then a single uFH0 record of size 12 with a 12-byte
payload. -/
def goodContainer : List Nat :=
  [0x55, 0x46, 0x4C, 0x30, 0, 0, 0, 32, 0, 0, 0, 0,
   0x75, 0x46, 0x48, 0x30, 0, 0, 0, 12, 1, 0, 0, 0, 16, 0, 2, 0, 254, 255, 0, 0]

/-- The same container with the first magic byte corrupted (not "UFL0"). -/
def badContainer : List Nat :=
  [0x58, 0x46, 0x4C, 0x30, 0, 0, 0, 32, 0, 0, 0, 0,
   0x75, 0x46, 0x48, 0x30, 0, 0, 0, 12, 1, 0, 0, 0, 16, 0, 2, 0, 254, 255, 0, 0]

end UFont

/-! # Theorems -/

/-- Low-nibble merge used by the packed pixel writer, evaluated
arithmetically: for a byte b and a 4-bit color c, (b AND 0xF) OR
(c shifted left by 4). -/
theorem byte_merge_even : ∀ b < 256, ∀ c < 16,
    (b &&& 0xF) ||| (c <<< 4) = c * 16 + b % 16 := by decide

/-- High-nibble merge used by the packed pixel writer: for a byte b and a
4-bit color c, (b AND 0xF0) OR c. -/
theorem byte_merge_odd : ∀ b < 256, ∀ c < 16,
    (b &&& 0xF0) ||| c = b / 16 * 16 + c := by decide

namespace Acep

/-- The counter value after k+1 updates is 5 minus (k mod 5). -/
theorem refreshState_formula (k : Nat) :
    refreshState (k + 1) = 5 - ((k % 5 : Nat) : ℤ) := by
  induction k with
  | zero => decide
  | succ k ih =>
    show (maybe_refresh (refreshState (k + 1))).2 = _
    rw [ih]
    simp only [maybe_refresh]
    split <;> simp <;> omega

/-- Claim C7: count_to_refresh starts at 0, so the very first update
(k = 0) forces the full clear; the counter is then reset to 5 and exactly
every 5th update thereafter (k = 5, 10, ...) clears again, the counter
after the k-th update always being 5 - (k mod 5); the state persists
across update calls by construction of refreshState. -/
theorem claim7_forced_clear_cadence :
    refreshState 0 = 0 ∧ ∀ k : Nat,
      (maybe_refresh (refreshState k)).1 = decide (k % 5 = 0) ∧
      (maybe_refresh (refreshState k)).2 = 5 - ((k % 5 : Nat) : ℤ) := by
  refine ⟨rfl, fun k => ?_⟩
  have h2 : (maybe_refresh (refreshState k)).2 = refreshState (k + 1) := rfl
  rw [h2, refreshState_formula]
  refine ⟨?_, rfl⟩
  cases k with
  | zero => decide
  | succ j =>
    rw [refreshState_formula]
    have hj : j % 5 < 5 := Nat.mod_lt _ (by norm_num)
    simp only [maybe_refresh]
    split
    · rename_i h
      have : (j + 1) % 5 = 0 := by omega
      simp [this]
    · rename_i h
      have : (j + 1) % 5 ≠ 0 := by omega
      simp [this]

end Acep

namespace MemLcd

/-- Claim C3, counterexample: two consecutive update calls starting from the
initial vcom state 0 transmit the same polarity bit (0) in their first
scanline mode bytes, and the vcom state after an update equals the state
before it (240 toggles, an even number), so the per-update-call polarity
never alternates. -/
theorem claim3_counterexample :
    (memlcd_update 0).2 = 0
    ∧ ((memlcd_update 0).1.getD 0 0) &&& 0x2
      = ((memlcd_update ((memlcd_update 0).2)).1.getD 0 0) &&& 0x2 := by
  constructor <;> decide

/-- Shape of the mode byte list of one update: n scanlines, byte i carrying
the vcom value after i toggles, and the final state after n toggles. -/
theorem updateModeBytes_spec : ∀ (n : Nat) (v : Nat), v = 0 ∨ v = 2 →
    ((updateModeBytes n v).1.length = n)
    ∧ ((updateModeBytes n v).2 = if n % 2 = 0 then v else (get_vcom v).2)
    ∧ ∀ i < n, (updateModeBytes n v).1.getD i 0
        = 0x1 ||| (if i % 2 = 0 then v else (get_vcom v).2) := by
  intro n
  induction n with
  | zero =>
    intro v _
    refine ⟨rfl, by simp [updateModeBytes], fun i hi => by omega⟩
  | succ n ih =>
    intro v hv
    have hv2 : (get_vcom v).2 = 0 ∨ (get_vcom v).2 = 2 := by
      rcases hv with h | h <;> simp [get_vcom, h]
    obtain ⟨ihl, ihs, ihd⟩ := ih (get_vcom v).2 hv2
    have htog : (get_vcom (get_vcom v).2).2 = v := by
      rcases hv with h | h <;> simp [get_vcom, h]
    refine ⟨by simpa [updateModeBytes] using ihl, ?_, ?_⟩
    · show (updateModeBytes n (get_vcom v).2).2 = _
      rw [ihs, htog]
      rcases Nat.even_or_odd n with he | ho
      · have h1 : n % 2 = 0 := Nat.even_iff.mp he
        have h2 : (n + 1) % 2 = 1 := by omega
        simp [h1, h2]
      · have h1 : n % 2 = 1 := Nat.odd_iff.mp ho
        have h2 : (n + 1) % 2 = 0 := by omega
        simp [h1, h2]
    · intro i hi
      cases i with
      | zero => simp [updateModeBytes, get_vcom]
      | succ i =>
        have hi2 : i < n := by omega
        have := ihd i hi2
        show ((0x1 ||| (get_vcom v).1) :: (updateModeBytes n (get_vcom v).2).1).getD (i + 1) 0 = _
        rw [List.getD_cons_succ, this, htog]
        rcases Nat.even_or_odd i with he | ho
        · have h1 : i % 2 = 0 := Nat.even_iff.mp he
          have h2 : (i + 1) % 2 = 1 := by omega
          simp [h1, h2]
        · have h1 : i % 2 = 1 := Nat.odd_iff.mp ho
          have h2 : (i + 1) % 2 = 0 := by omega
          simp [h1, h2]

/-- Claim C3, amended: the polarity bit of the transmitted scanline mode
byte alternates strictly from one scanline to the next (get_vcom is called
once per scanline, not once per update), and since an update transmits 240
scanlines — an even count — the vcom state after each update call equals
the state before it, so consecutive update calls transmit identical mode
byte sequences instead of alternating between calls. -/
theorem claim3_amended_vcom_alternates_per_scanline :
    ∀ v : Nat, v = 0 ∨ v = 2 →
      (∀ n i : Nat, i + 1 < n →
        ((updateModeBytes n v).1.getD i 0) &&& 0x2
          ≠ ((updateModeBytes n v).1.getD (i + 1) 0) &&& 0x2)
      ∧ (memlcd_update v).2 = v := by
  intro v hv
  constructor
  · intro n i hi
    obtain ⟨-, -, hd⟩ := updateModeBytes_spec n v hv
    rw [hd i (by omega), hd (i + 1) (by omega)]
    rcases Nat.even_or_odd i with he | ho
    · have h1 : i % 2 = 0 := Nat.even_iff.mp he
      have h2 : (i + 1) % 2 = 1 := by omega
      rcases hv with h | h <;> simp [h1, h2, h, get_vcom]
    · have h1 : i % 2 = 1 := Nat.odd_iff.mp ho
      have h2 : (i + 1) % 2 = 0 := by omega
      rcases hv with h | h <;> simp [h1, h2, h, get_vcom]
  · obtain ⟨-, hs, -⟩ := updateModeBytes_spec memLcdHeight v hv
    simpa [memlcd_update, memLcdHeight] using hs

/-- Witness for the amended claim: initial state 0, a 2-line window. -/
theorem claim3_amended_witness :
    ((0 : Nat) = 0 ∨ (0 : Nat) = 2)
    ∧ (((updateModeBytes 2 0).1.getD 0 0) &&& 0x2
        ≠ ((updateModeBytes 2 0).1.getD 1 0) &&& 0x2)
    ∧ (memlcd_update 0).2 = 0 :=
  ⟨Or.inl rfl,
   (claim3_amended_vcom_alternates_per_scanline 0 (Or.inl rfl)).1 2 0 (by omega),
   (claim3_amended_vcom_alternates_per_scanline 0 (Or.inl rfl)).2⟩

end MemLcd

namespace Ili

/-- Claim C6: with the bounded worker queue already holding cap messages,
consuming one more mailbox message drops and disposes the oldest queued
message and leaves the remaining messages plus the new one in arrival
order; in the degenerate case where even after the drop no room exists
(capacity 0) the newest message itself is disposed and the queue is left
as it was. -/
theorem claim6_inbox_backpressure :
    ∀ (cap : Nat) (q : List Nat) (msg : Nat), q.length = cap →
      (0 < cap → consumeMailbox cap q msg = (q.tail ++ [msg], q.take 1))
      ∧ (cap = 0 → consumeMailbox cap q msg = (q, [msg])) := by
  intro cap q msg hlen
  constructor
  · intro hcap
    cases q with
    | nil => simp at hlen; omega
    | cons old rest =>
      have hl : (old :: rest).length = rest.length + 1 := List.length_cons _ _
      have h1 : ¬ (old :: rest).length < cap := by omega
      have h2 : rest.length < cap := by omega
      show consumeMailbox cap (old :: rest) msg = _
      unfold consumeMailbox
      rw [if_neg h1]
      show (if rest.length < cap then (rest ++ [msg], [old]) else (rest, [old, msg])) = _
      rw [if_pos h2]
      simp
  · intro hcap
    subst hcap
    have hq : q = [] := List.eq_nil_of_length_eq_zero hlen
    subst hq
    simp [consumeMailbox]

/-- Witness: a full queue of capacity 2 holding messages 10 and 20 receives
message 30: message 10 is disposed, messages 20 and 30 remain in order. -/
theorem claim6_witness :
    ([10, 20] : List Nat).length = 2 ∧ 0 < 2
    ∧ consumeMailbox 2 [10, 20] 30 = ([20, 30], [10]) :=
  ⟨rfl, by decide, (claim6_inbox_backpressure 2 [10, 20] 30 rfl).1 (by decide)⟩

end Ili

namespace Acep

/-- Claim C4: the packed-pixel writer places color c in the high nibble of
byte x/2 at even x and the low nibble at odd x leaving the other nibble
unchanged (demonstrated at x = 10 and x = 11 on an 0x11 buffer), but the
overflow guard tests xpos > 600 instead of xpos >= 600, so the boundary
write at x = 600 is not the no-op the claim requires: it stores into byte
index 300 while the allocated line buffer is DISPLAY_WIDTH / 2 = 300 bytes
(indices 0..299).  Writes strictly beyond 600 are no-ops as claimed. -/
theorem claim4_overflow_guard_off_by_one :
    draw_pixel_x (fun _ => 0x11) 600 7 (acepWidth / 2) = 0x71
    ∧ (fun _ => (0x11 : Nat)) (acepWidth / 2) = 0x11
    ∧ draw_pixel_x (fun _ => 0x11) 601 7 = (fun _ => 0x11)
    ∧ nibbleAt (draw_pixel_x (fun _ => 0x11) 10 7) 10 = 7
    ∧ nibbleAt (draw_pixel_x (fun _ => 0x11) 10 7) 11 = 1
    ∧ nibbleAt (draw_pixel_x (fun _ => 0x11) 11 7) 11 = 7
    ∧ nibbleAt (draw_pixel_x (fun _ => 0x11) 11 7) 10 = 1 :=
  ⟨by decide, rfl, funext fun i => by simp [draw_pixel_x, acepWidth],
   by decide, by decide, by decide, by decide⟩

end Acep

namespace UFont

/-- Claim C5: the magic check of ufont_parse is inverted.  A well-formed
container whose first four bytes are the magic "UFL0" is recognized as
valid by ufont_iff_is_valid_ufl yet ufont_parse returns NULL for it, while
the same container with a corrupted magic is accepted and parsed. -/
theorem claim5_magic_check_inverted :
    ufont_iff_is_valid_ufl goodContainer = true
    ∧ ufont_parse goodContainer 32 = none
    ∧ ufont_iff_is_valid_ufl badContainer = false
    ∧ ufont_parse badContainer 32 = some (some 20, none, none, none) := by
  refine ⟨by decide, by decide, by decide, by decide⟩

end UFont

namespace Ili

/-- Replicating the top 3 bits of a 5-bit channel into the low bits keeps
the 5 high bits of the 8-bit result equal to the channel. -/
theorem expand_hi5 : ∀ v < 32, ((v <<< 3) ||| (v >>> 2)) >>> 3 = v := by decide

/-- Replicating the top 2 bits of a 6-bit channel into the low bits keeps
the 6 high bits of the 8-bit result equal to the channel. -/
theorem expand_hi6 : ∀ v < 64, ((v <<< 2) ||| (v >>> 4)) >>> 2 = v := by decide

/-- Packing truncated channels into a 565 word and extracting them back is
lossless for the truncated values. -/
theorem pack565_extract (r g b : Nat) (hr : r < 256) (hg : g < 256) (hb : b < 256) :
    ((((r >>> 3) <<< 11) ||| ((g >>> 2) <<< 5) ||| (b >>> 3)) >>> 11) &&& 0x1F = r >>> 3
    ∧ ((((r >>> 3) <<< 11) ||| ((g >>> 2) <<< 5) ||| (b >>> 3)) >>> 5) &&& 0x3F = g >>> 2
    ∧ ((((r >>> 3) <<< 11) ||| ((g >>> 2) <<< 5) ||| (b >>> 3)) >>> 0) &&& 0x1F = b >>> 3 := by
  have hr5 : r >>> 3 < 32 := by
    rw [Nat.shiftRight_eq_div_pow]; omega
  have hg6 : g >>> 2 < 64 := by
    rw [Nat.shiftRight_eq_div_pow]; omega
  have hb5 : b >>> 3 < 32 := by
    rw [Nat.shiftRight_eq_div_pow]; omega
  set r5 := r >>> 3
  set g6 := g >>> 2
  set b5 := b >>> 3
  have e1 : (r5 <<< 11) ||| (g6 <<< 5) = r5 * 2048 + g6 * 32 := by
    calc (r5 <<< 11) ||| (g6 <<< 5) = (2 ^ 11 * r5) ||| (g6 * 2 ^ 5) := by
          rw [Nat.shiftLeft_eq, Nat.shiftLeft_eq, Nat.mul_comm r5]
      _ = 2 ^ 11 * r5 + g6 * 2 ^ 5 := (Nat.mul_add_lt_is_or (by omega) r5).symm
      _ = r5 * 2048 + g6 * 32 := by ring
  have e2 : (r5 * 2048 + g6 * 32) ||| b5 = r5 * 2048 + g6 * 32 + b5 := by
    calc (r5 * 2048 + g6 * 32) ||| b5 = (2 ^ 5 * (r5 * 64 + g6)) ||| b5 := by
          rw [show r5 * 2048 + g6 * 32 = 2 ^ 5 * (r5 * 64 + g6) from by ring]
      _ = 2 ^ 5 * (r5 * 64 + g6) + b5 := (Nat.mul_add_lt_is_or (by omega) _).symm
      _ = r5 * 2048 + g6 * 32 + b5 := by ring
  have hpx : ((r5 <<< 11) ||| (g6 <<< 5) ||| b5) = r5 * 2048 + g6 * 32 + b5 := by
    rw [e1, e2]
  have m5 : ∀ x : Nat, x &&& 0x1F = x % 32 := fun x => by
    have := Nat.and_pow_two_sub_one_eq_mod x 5
    norm_num at this
    exact this
  have m6 : ∀ x : Nat, x &&& 0x3F = x % 64 := fun x => by
    have := Nat.and_pow_two_sub_one_eq_mod x 6
    norm_num at this
    exact this
  refine ⟨?_, ?_, ?_⟩
  · rw [hpx, Nat.shiftRight_eq_div_pow, m5]
    norm_num
    omega
  · rw [hpx, Nat.shiftRight_eq_div_pow, m6]
    norm_num
    omega
  · rw [hpx, Nat.shiftRight_zero, m5]
    omega

/-- Claim C9: converting rgba8888 to RGB565 by truncation and expanding
back by bit replication reproduces the high 5 (red, blue) and 6 (green)
bits of every channel, the lost low bits being a deterministic function of
the kept ones; in particular 0xFF truncates to 0x1F and expands back to
exactly 0xFF, while 0x80 truncates to 0x10 and expands to 0x84. -/
theorem claim9_rgb565_roundtrip :
    (∀ color : Nat,
      (expand565 (rgba8888_color_to_rgb565 color)).1 >>> 3 = ((color >>> 24) % 256) >>> 3
      ∧ (expand565 (rgba8888_color_to_rgb565 color)).2.1 >>> 2 = ((color >>> 16) &&& 0xFF) >>> 2
      ∧ (expand565 (rgba8888_color_to_rgb565 color)).2.2 >>> 3 = ((color >>> 8) &&& 0xFF) >>> 3)
    ∧ expand565 (rgba8888_color_to_rgb565 0xFFFFFFFF) = (0xFF, 0xFF, 0xFF)
    ∧ expand565 (rgba8888_color_to_rgb565 0x808080FF) = (0x84, 0x82, 0x84)
    ∧ (0xFF : Nat) >>> 3 = 0x1F ∧ (0x80 : Nat) >>> 3 = 0x10 := by
  refine ⟨fun color => ?_, by decide, by decide, by decide, by decide⟩
  have hr : (color >>> 24) % 256 < 256 := Nat.mod_lt _ (by norm_num)
  have hg : (color >>> 16) &&& 0xFF < 256 := lt_of_le_of_lt Nat.and_le_right (by norm_num)
  have hb : (color >>> 8) &&& 0xFF < 256 := lt_of_le_of_lt Nat.and_le_right (by norm_num)
  obtain ⟨p1, p2, p3⟩ := pack565_extract _ _ _ hr hg hb
  have hr5 : ((color >>> 24) % 256) >>> 3 < 32 := by
    rw [Nat.shiftRight_eq_div_pow]; omega
  have hg6 : ((color >>> 16) &&& 0xFF) >>> 2 < 64 := by
    rw [Nat.shiftRight_eq_div_pow]; omega
  have hb5 : ((color >>> 8) &&& 0xFF) >>> 3 < 32 := by
    rw [Nat.shiftRight_eq_div_pow]; omega
  refine ⟨?_, ?_, ?_⟩
  · show ((((rgba8888_color_to_rgb565 color) >>> 11) &&& 0x1F) <<< 3
      ||| (((rgba8888_color_to_rgb565 color) >>> 11) &&& 0x1F) >>> 2) >>> 3 = _
    rw [show rgba8888_color_to_rgb565 color
      = ((((color >>> 24) % 256) >>> 3) <<< 11) ||| ((((color >>> 16) &&& 0xFF) >>> 2) <<< 5)
        ||| (((color >>> 8) &&& 0xFF) >>> 3) from rfl, p1]
    exact expand_hi5 _ hr5
  · show ((((rgba8888_color_to_rgb565 color) >>> 5) &&& 0x3F) <<< 2
      ||| (((rgba8888_color_to_rgb565 color) >>> 5) &&& 0x3F) >>> 4) >>> 2 = _
    rw [show rgba8888_color_to_rgb565 color
      = ((((color >>> 24) % 256) >>> 3) <<< 11) ||| ((((color >>> 16) &&& 0xFF) >>> 2) <<< 5)
        ||| (((color >>> 8) &&& 0xFF) >>> 3) from rfl, p2]
    exact expand_hi6 _ hg6
  · show ((((rgba8888_color_to_rgb565 color) >>> 0) &&& 0x1F) <<< 3
      ||| (((rgba8888_color_to_rgb565 color) >>> 0) &&& 0x1F) >>> 2) >>> 3 = _
    rw [show rgba8888_color_to_rgb565 color
      = ((((color >>> 24) % 256) >>> 3) <<< 11) ||| ((((color >>> 16) &&& 0xFF) >>> 2) <<< 5)
        ||| (((color >>> 8) &&& 0xFF) >>> 3) from rfl, p3]
    exact expand_hi5 _ hb5

end Ili

namespace Sdl

/-- cmp_display_item is reflexive: every item structurally equals itself
(image pointers, text contents and all scalar fields are compared by
equality). -/
theorem cmp_display_item_refl (a : BaseDisplayItem) : cmp_display_item a a = true := by
  obtain ⟨p, x, y, w, h, br, px, fg, tx⟩ := a
  cases p <;> simp [cmp_display_item]

/-- Claim C2, counterexample: with A = Rect(0,0,10,10), B = Rect(20,0,5,5)
in the previous list and C = Rect(100,100,5,5) replacing B in the new list
(B and C disjoint and on-screen), dumb_diff computes only the bounding box
of C; the union of the boxes of B and C — which is its own clip against the
320x240 screen — is not produced, contradicting the claimed exactness. -/
theorem claim2_counterexample :
    dumb_diff [exA, exB] [exA, exC] emptyDamage = ⟨100, 100, 5, 5, true⟩
    ∧ clip_rectangle ⟨20, 0, 85, 105, true⟩ (screenRect 320 240) = ⟨20, 0, 85, 105, true⟩
    ∧ dumb_diff [exA, exB] [exA, exC] emptyDamage ≠ ⟨20, 0, 85, 105, true⟩ := by
  refine ⟨by decide, by decide, by decide⟩

/-- Claim C2, amended: for a previous list [A, B] and new list [A, C] with
A unchanged and C not structurally equal to B (and the box of C anchored
on-screen), the damage rectangle dumb_diff computes — and do_update clips to
the screen and hands to its raster loops — is exactly the bounding box of C;
the box of the dropped item B is never added, because the scan never
accounts for original items left unmatched at the end. -/
theorem claim2_amended_damage_is_new_item_box :
    ∀ (w h : ℤ) (A B C : BaseDisplayItem),
      cmp_display_item C B = false → 0 ≤ C.x → 0 ≤ C.y →
      do_update_region w h [A, B] [A, C]
        = some (clip_rectangle (rectOf C) (screenRect w h)) := by
  intro w h A B C hcb hcx hcy
  have hgd0 : ([A, B] : List BaseDisplayItem).getD 0 dummyItem = A := rfl
  have hgd1 : ([A, B] : List BaseDisplayItem).getD 1 dummyItem = B := rfl
  have hdiff : dumb_diff [A, B] [A, C] emptyDamage = rectOf C := by
    show dumbDiffAux [A, B] [A, C] 0 emptyDamage = rectOf C
    rw [show dumbDiffAux [A, B] [A, C] 0 emptyDamage
        = dumbDiffAux [A, B] [C] 1 emptyDamage from by
      simp [dumbDiffAux, hgd0, cmp_display_item_refl]]
    have hff : findForward [A, B] C 2 = none := by
      simp [findForward, List.range']
    simp [dumbDiffAux, hgd1, hcb, hff, update_damaged_area, emptyDamage, rectOf]
  simp [do_update_region, hdiff, rectOf]

/-- Witness for the amended claim at the concrete counterexample scene. -/
theorem claim2_amended_witness :
    cmp_display_item exC exB = false ∧ (0 : ℤ) ≤ exC.x ∧ (0 : ℤ) ≤ exC.y
    ∧ do_update_region 320 240 [exA, exB] [exA, exC]
      = some (clip_rectangle (rectOf exC) (screenRect 320 240)) :=
  ⟨by decide, by decide, by decide,
   claim2_amended_damage_is_new_item_box 320 240 exA exB exC (by decide) (by decide)
     (by decide)⟩

end Sdl

namespace Acep

/-- At Bayer matrix value 8 the computed per-channel dither offset is zero
for every channel weight: w * (8 * 0.0625 - 0.5) = 0 and roundf 0 = 0. -/
theorem ditherChannel_eight (w : ℚ) : ditherChannel w 8 = 0 := by
  unfold ditherChannel
  have h0 : ((8 : ℕ) : ℚ) * (1/16) - 1/2 = 0 := by norm_num
  rw [h0, mul_zero]
  unfold roundfQ
  rw [if_pos le_rfl, Int.floor_eq_zero_iff]
  constructor <;> norm_num

/-- Behavior of the selection loop: either no scanned distance beats the
incoming minimum and the incoming index is kept, or the result is the
absolute index of the first occurrence of the minimal distance — minimal
among all entries and strictly below every earlier entry (ties keep the
lowest index because the comparison is strict). -/
theorem minScan_spec : ∀ (ds : List ℚ) (mn : ℚ) (mi i : Nat),
    (minScan ds mn mi i = mi ∧ ∀ d ∈ ds, mn ≤ d)
    ∨ ∃ k, k < ds.length ∧ minScan ds mn mi i = i + k ∧ ds.getD k 0 < mn
        ∧ (∀ l, l < ds.length → ds.getD k 0 ≤ ds.getD l 0)
        ∧ (∀ l, l < k → ds.getD k 0 < ds.getD l 0) := by
  intro ds
  induction ds with
  | nil =>
    intro mn mi i
    exact Or.inl ⟨rfl, by simp⟩
  | cons d rest ih =>
    intro mn mi i
    by_cases hd : d < mn
    · have hstep : minScan (d :: rest) mn mi i = minScan rest d i (i + 1) := by
        simp [minScan, hd]
      rcases ih d i (i + 1) with ⟨heq, hall⟩ | ⟨k, hk, heq, hlt, hmin, hstrict⟩
      · refine Or.inr ⟨0, by simp, ?_, by simpa using hd, ?_, ?_⟩
        · rw [hstep, heq]
          omega
        · intro l hl
          cases l with
          | zero => simp
          | succ l =>
            simp only [List.getD_cons_zero, List.getD_cons_succ]
            have hl2 : l < rest.length := by simpa using hl
            have hmem : rest.getD l 0 ∈ rest := by
              rw [List.getD_eq_getElem _ _ hl2]
              exact List.getElem_mem hl2
            exact hall _ hmem
        · intro l hl
          omega
      · refine Or.inr ⟨k + 1, by simpa using hk, ?_, ?_, ?_, ?_⟩
        · rw [hstep, heq]
          omega
        · rw [List.getD_cons_succ]
          exact lt_trans hlt hd
        · intro l hl
          cases l with
          | zero =>
            simp only [List.getD_cons_succ, List.getD_cons_zero]
            exact le_of_lt hlt
          | succ l =>
            simp only [List.getD_cons_succ]
            exact hmin l (by simpa using hl)
        · intro l hl
          cases l with
          | zero =>
            simp only [List.getD_cons_succ, List.getD_cons_zero]
            exact hlt
          | succ l =>
            simp only [List.getD_cons_succ]
            exact hstrict l (by omega)
    · have hstep : minScan (d :: rest) mn mi i = minScan rest mn mi (i + 1) := by
        simp [minScan, hd]
      rcases ih mn mi (i + 1) with ⟨heq, hall⟩ | ⟨k, hk, heq, hlt, hmin, hstrict⟩
      · refine Or.inl ⟨by rw [hstep, heq], ?_⟩
        intro e he
        rcases List.mem_cons.mp he with h | h
        · subst h
          exact le_of_not_lt hd
        · exact hall _ h
      · refine Or.inr ⟨k + 1, by simpa using hk, ?_, ?_, ?_, ?_⟩
        · rw [hstep, heq]
          omega
        · rw [List.getD_cons_succ]
          exact hlt
        · intro l hl
          cases l with
          | zero =>
            simp only [List.getD_cons_succ, List.getD_cons_zero]
            exact le_trans (le_of_lt hlt) (le_of_not_lt hd)
          | succ l =>
            simp only [List.getD_cons_succ]
            exact hmin l (by simpa using hl)
        · intro l hl
          cases l with
          | zero =>
            simp only [List.getD_cons_succ, List.getD_cons_zero]
            exact lt_of_lt_of_le hlt (le_of_not_lt hd)
          | succ l =>
            simp only [List.getD_cons_succ]
            exact hstrict l (by omega)

/-- Claim C8: at any destination coordinate whose Bayer matrix value is 8
the dither offset vanishes, and feeding the exact RGB triple of any of the
7 palette entries to dither_acep7 there returns that entry's own index;
and the selection scan always returns the lowest index attaining the
minimal weighted squared distance — when two entries tie, the
lowest-indexed entry scanned first is kept (every earlier entry is
strictly worse). -/
theorem claim8_quantizer_identity_and_ties :
    (∀ x y i : Nat, bayerM (x % 4) (y % 4) = 8 → i < 7 →
      dither_acep7 x y (acepColors.getD i (0, 0, 0)).1 (acepColors.getD i (0, 0, 0)).2.1
        (acepColors.getD i (0, 0, 0)).2.2 = i)
    ∧ (∀ ds : List ℚ, (∀ d ∈ ds, d < cINT_MAX) → ds ≠ [] →
        minScan ds cINT_MAX 0 0 < ds.length
        ∧ (∀ l, l < ds.length → ds.getD (minScan ds cINT_MAX 0 0) 0 ≤ ds.getD l 0)
        ∧ (∀ l, l < minScan ds cINT_MAX 0 0 →
            ds.getD (minScan ds cINT_MAX 0 0) 0 < ds.getD l 0)) := by
  constructor
  · intro x y i h8 hi
    simp only [dither_acep7, h8, ditherChannel_eight, add_zero]
    interval_cases i <;>
      norm_num [acepColors, minScan, wdist, cINT_MAX]
  · intro ds hbound hne
    rcases minScan_spec ds cINT_MAX 0 0 with ⟨heq, hall⟩ | ⟨k, hk, heq, _, hmin, hstrict⟩
    · cases ds with
      | nil => exact absurd rfl hne
      | cons d rest =>
        have h1 : d < cINT_MAX := hbound d (List.mem_cons_self _ _)
        have h2 : cINT_MAX ≤ d := hall d (List.mem_cons_self _ _)
        exact absurd h1 (not_lt.mpr h2)
    · rw [heq]
      exact ⟨by simpa using hk, by simpa using hmin, by simpa using hstrict⟩

/-- The selection scan starting from index 0 lands inside the list. -/
theorem minScan_zero_lt (ds : List ℚ) (mn : ℚ) (h : 0 < ds.length) :
    minScan ds mn 0 0 < ds.length := by
  rcases minScan_spec ds mn 0 0 with ⟨heq, -⟩ | ⟨k, hk, heq, -, -, -⟩ <;> rw [heq] <;> omega

/-- The quantizer always returns one of the 7 palette indices. -/
theorem dither_acep7_lt (x y r g b : Nat) : dither_acep7 x y r g b < 7 := by
  simp only [dither_acep7]
  have h := minScan_zero_lt
    (acepColors.map fun c => wdist c ((r : ℤ) + ditherChannel 92 (bayerM (x % 4) (y % 4)))
      ((g : ℤ) + ditherChannel 85 (bayerM (x % 4) (y % 4)))
      ((b : ℤ) + ditherChannel 65 (bayerM (x % 4) (y % 4)))) cINT_MAX
    (by simp [acepColors])
  simpa [acepColors] using h

/-- Pointwise value of the buffer after a guarded write. -/
theorem draw_pixel_x_apply (buf : Buf) (p c : Nat) (h : ¬ acepWidth < p) (i : Nat) :
    draw_pixel_x buf p c i
      = if i = p / 2 then
          (if p % 2 = 0 then (buf (p / 2) &&& 0xF) ||| (c <<< 4)
           else (buf (p / 2) &&& 0xF0) ||| c)
        else buf i := by
  rw [draw_pixel_x, if_neg h]

/-- draw_pixel_x keeps every byte of the buffer below 256. -/
theorem draw_pixel_x_bytes (buf : Buf) (p c : Nat) (hb : ∀ i, buf i < 256) (hc : c < 16) :
    ∀ i, draw_pixel_x buf p c i < 256 := by
  intro i
  rcases lt_or_ge acepWidth p with h | h
  · rw [draw_pixel_x, if_pos h]
    exact hb i
  · rw [draw_pixel_x_apply buf p c (not_lt.mpr h) i]
    by_cases hi : i = p / 2
    · rw [if_pos hi]
      by_cases hpar : p % 2 = 0
      · rw [if_pos hpar, byte_merge_even _ (hb _) _ hc]
        omega
      · rw [if_neg hpar, byte_merge_odd _ (hb _) _ hc]
        have := hb (p / 2)
        omega
    · rw [if_neg hi]
      exact hb i

/-- Writing color c at pixel p stores c as the nibble at p (for p inside
the guard). -/
theorem nibbleAt_draw_self (buf : Buf) (p c : Nat) (hb : ∀ i, buf i < 256) (hc : c < 16)
    (hp : p ≤ acepWidth) : nibbleAt (draw_pixel_x buf p c) p = c := by
  unfold nibbleAt
  simp only [draw_pixel_x_apply buf p c (not_lt.mpr hp)]
  by_cases hpar : p % 2 = 0
  · rw [if_pos hpar, if_pos trivial, if_pos hpar, byte_merge_even _ (hb _) _ hc]
    omega
  · rw [if_neg hpar, if_pos trivial, if_neg hpar, byte_merge_odd _ (hb _) _ hc]
    omega

/-- Writing at pixel p leaves the nibble of any other pixel q unchanged,
whether q lives in another byte or in the other nibble of the same byte. -/
theorem nibbleAt_draw_other (buf : Buf) (p c q : Nat) (hb : ∀ i, buf i < 256) (hc : c < 16)
    (hne : q ≠ p) : nibbleAt (draw_pixel_x buf p c) q = nibbleAt buf q := by
  rcases lt_or_ge acepWidth p with h | h
  · rw [draw_pixel_x, if_pos h]
  · unfold nibbleAt
    simp only [draw_pixel_x_apply buf p c (not_lt.mpr h)]
    by_cases hqp : q % 2 = 0
    · rw [if_pos hqp, if_pos hqp]
      by_cases hq : q / 2 = p / 2
      · have hpp : ¬ p % 2 = 0 := by omega
        rw [if_pos hq, if_neg hpp, hq, byte_merge_odd _ (hb _) _ hc]
        omega
      · rw [if_neg hq]
    · rw [if_neg hqp, if_neg hqp]
      by_cases hq : q / 2 = p / 2
      · have hpp : p % 2 = 0 := by omega
        rw [if_pos hq, if_pos hpp, hq, byte_merge_even _ (hb _) _ hc]
        omega
      · rw [if_neg hq]

/-- The image loop never decreases drawn_pixels. -/
theorem drawImageLoop_mono (pix : ℤ → Nat) (baseOff : ℤ) (vb : Bool) (br bg bb : Nat)
    (xpos ypos : Nat) : ∀ fuel buf drawn,
    drawn ≤ (drawImageLoop pix baseOff vb br bg bb xpos ypos fuel buf drawn).2 := by
  intro fuel
  induction fuel with
  | zero => intro buf drawn; exact le_refl _
  | succ fuel ih =>
    intro buf drawn
    simp only [drawImageLoop]
    split
    · exact le_trans (Nat.le_succ _) (ih _ _)
    · split
      · exact le_trans (Nat.le_succ _) (ih _ _)
      · exact le_refl _

/-- Once the image loop runs with drawn at least 1 its writes land at
positions xpos + drawn, so the nibble at xpos and the byte bound are
preserved. -/
theorem drawImageLoop_preserve (pix : ℤ → Nat) (baseOff : ℤ) (vb : Bool) (br bg bb : Nat)
    (xpos ypos : Nat) : ∀ fuel buf drawn, (∀ i, buf i < 256) → 1 ≤ drawn →
    (∀ i, (drawImageLoop pix baseOff vb br bg bb xpos ypos fuel buf drawn).1 i < 256)
    ∧ nibbleAt ((drawImageLoop pix baseOff vb br bg bb xpos ypos fuel buf drawn).1) xpos
      = nibbleAt buf xpos := by
  intro fuel
  induction fuel with
  | zero => intro buf drawn hb _; exact ⟨hb, rfl⟩
  | succ fuel ih =>
    intro buf drawn hb hd
    simp only [drawImageLoop]
    split
    · have hc : dither_acep7 (xpos + drawn) ypos ((pix (baseOff + (drawn : ℤ)) >>> 24) % 256)
          ((pix (baseOff + (drawn : ℤ)) >>> 16) &&& 0xFF)
          ((pix (baseOff + (drawn : ℤ)) >>> 8) &&& 0xFF) < 16 := by
        have := dither_acep7_lt (xpos + drawn) ypos ((pix (baseOff + (drawn : ℤ)) >>> 24) % 256)
          ((pix (baseOff + (drawn : ℤ)) >>> 16) &&& 0xFF)
          ((pix (baseOff + (drawn : ℤ)) >>> 8) &&& 0xFF)
        omega
      obtain ⟨h1, h2⟩ := ih (draw_pixel_x buf (xpos + drawn) _) (drawn + 1)
        (draw_pixel_x_bytes _ _ _ hb hc) (by omega)
      exact ⟨h1, by rw [h2, nibbleAt_draw_other _ _ _ _ hb hc (by omega)]⟩
    · split
      · have hc : dither_acep7 (xpos + drawn) ypos br bg bb < 16 := by
          have := dither_acep7_lt (xpos + drawn) ypos br bg bb
          omega
        obtain ⟨h1, h2⟩ := ih (draw_pixel_x buf (xpos + drawn) _) (drawn + 1)
          (draw_pixel_x_bytes _ _ _ hb hc) (by omega)
        exact ⟨h1, by rw [h2, nibbleAt_draw_other _ _ _ _ hb hc (by omega)]⟩
      · exact ⟨hb, rfl⟩

/-- The scaled-image loop never decreases drawn_pixels. -/
theorem drawScaledLoop_mono (pix : ℤ → Nat) (rowBase sourceX xScale j0 : ℤ) (vb : Bool)
    (br bg bb : Nat) (xpos ypos : Nat) : ∀ fuel curOff buf drawn,
    drawn ≤ (drawScaledLoop pix rowBase sourceX xScale j0 vb br bg bb xpos ypos fuel curOff
      buf drawn).2 := by
  intro fuel
  induction fuel with
  | zero => intro curOff buf drawn; exact le_refl _
  | succ fuel ih =>
    intro curOff buf drawn
    simp only [drawScaledLoop]
    split
    · exact le_trans (Nat.le_succ _) (ih _ _ _)
    · split
      · exact le_trans (Nat.le_succ _) (ih _ _ _)
      · exact le_refl _

/-- Nibble and byte-bound preservation for the scaled-image loop from
drawn at least 1. -/
theorem drawScaledLoop_preserve (pix : ℤ → Nat) (rowBase sourceX xScale j0 : ℤ) (vb : Bool)
    (br bg bb : Nat) (xpos ypos : Nat) : ∀ fuel curOff buf drawn, (∀ i, buf i < 256) →
    1 ≤ drawn →
    (∀ i, (drawScaledLoop pix rowBase sourceX xScale j0 vb br bg bb xpos ypos fuel curOff
      buf drawn).1 i < 256)
    ∧ nibbleAt ((drawScaledLoop pix rowBase sourceX xScale j0 vb br bg bb xpos ypos fuel curOff
      buf drawn).1) xpos = nibbleAt buf xpos := by
  intro fuel
  induction fuel with
  | zero => intro curOff buf drawn hb _; exact ⟨hb, rfl⟩
  | succ fuel ih =>
    intro curOff buf drawn hb hd
    simp only [drawScaledLoop]
    split
    · have hc : dither_acep7 (xpos + drawn) ypos ((pix curOff >>> 24) % 256)
          ((pix curOff >>> 16) &&& 0xFF) ((pix curOff >>> 8) &&& 0xFF) < 16 := by
        have := dither_acep7_lt (xpos + drawn) ypos ((pix curOff >>> 24) % 256)
          ((pix curOff >>> 16) &&& 0xFF) ((pix curOff >>> 8) &&& 0xFF)
        omega
      obtain ⟨h1, h2⟩ := ih _ (draw_pixel_x buf (xpos + drawn) _) (drawn + 1)
        (draw_pixel_x_bytes _ _ _ hb hc) (by omega)
      exact ⟨h1, by rw [h2, nibbleAt_draw_other _ _ _ _ hb hc (by omega)]⟩
    · split
      · have hc : dither_acep7 (xpos + drawn) ypos br bg bb < 16 := by
          have := dither_acep7_lt (xpos + drawn) ypos br bg bb
          omega
        obtain ⟨h1, h2⟩ := ih _ (draw_pixel_x buf (xpos + drawn) _) (drawn + 1)
          (draw_pixel_x_bytes _ _ _ hb hc) (by omega)
        exact ⟨h1, by rw [h2, nibbleAt_draw_other _ _ _ _ hb hc (by omega)]⟩
      · exact ⟨hb, rfl⟩

/-- The rect loop never decreases drawn_pixels. -/
theorem drawRectLoop_mono (r g b : Nat) (xpos ypos : Nat) : ∀ fuel buf drawn,
    drawn ≤ (drawRectLoop r g b xpos ypos fuel buf drawn).2 := by
  intro fuel
  induction fuel with
  | zero => intro buf drawn; exact le_refl _
  | succ fuel ih =>
    intro buf drawn
    simp only [drawRectLoop]
    exact le_trans (Nat.le_succ _) (ih _ _)

/-- Nibble and byte-bound preservation for the rect loop from drawn at
least 1. -/
theorem drawRectLoop_preserve (r g b : Nat) (xpos ypos : Nat) : ∀ fuel buf drawn,
    (∀ i, buf i < 256) → 1 ≤ drawn →
    (∀ i, (drawRectLoop r g b xpos ypos fuel buf drawn).1 i < 256)
    ∧ nibbleAt ((drawRectLoop r g b xpos ypos fuel buf drawn).1) xpos = nibbleAt buf xpos := by
  intro fuel
  induction fuel with
  | zero => intro buf drawn hb _; exact ⟨hb, rfl⟩
  | succ fuel ih =>
    intro buf drawn hb hd
    simp only [drawRectLoop]
    have hc : dither_acep7 (xpos + drawn) ypos r g b < 16 := by
      have := dither_acep7_lt (xpos + drawn) ypos r g b
      omega
    obtain ⟨h1, h2⟩ := ih (draw_pixel_x buf (xpos + drawn) _) (drawn + 1)
      (draw_pixel_x_bytes _ _ _ hb hc) (by omega)
    exact ⟨h1, by rw [h2, nibbleAt_draw_other _ _ _ _ hb hc (by omega)]⟩

/-- The text loop never decreases drawn_pixels. -/
theorem drawTextLoop_mono (font : ℤ → Nat) (text : ℤ → Nat) (j0 rowIdx : ℤ) (vb : Bool)
    (fr fg fb br bg bb : Nat) (xpos ypos : Nat) : ∀ fuel buf drawn,
    drawn ≤ (drawTextLoop font text j0 rowIdx vb fr fg fb br bg bb xpos ypos fuel buf
      drawn).2 := by
  intro fuel
  induction fuel with
  | zero => intro buf drawn; exact le_refl _
  | succ fuel ih =>
    intro buf drawn
    simp only [drawTextLoop]
    split
    · exact le_trans (Nat.le_succ _) (ih _ _)
    · split
      · exact le_trans (Nat.le_succ _) (ih _ _)
      · exact le_refl _

/-- Nibble and byte-bound preservation for the text loop from drawn at
least 1. -/
theorem drawTextLoop_preserve (font : ℤ → Nat) (text : ℤ → Nat) (j0 rowIdx : ℤ) (vb : Bool)
    (fr fg fb br bg bb : Nat) (xpos ypos : Nat) : ∀ fuel buf drawn, (∀ i, buf i < 256) →
    1 ≤ drawn →
    (∀ i, (drawTextLoop font text j0 rowIdx vb fr fg fb br bg bb xpos ypos fuel buf
      drawn).1 i < 256)
    ∧ nibbleAt ((drawTextLoop font text j0 rowIdx vb fr fg fb br bg bb xpos ypos fuel buf
      drawn).1) xpos = nibbleAt buf xpos := by
  intro fuel
  induction fuel with
  | zero => intro buf drawn hb _; exact ⟨hb, rfl⟩
  | succ fuel ih =>
    intro buf drawn hb hd
    simp only [drawTextLoop]
    split
    · have hc : dither_acep7 (xpos + drawn) ypos fr fg fb < 16 := by
        have := dither_acep7_lt (xpos + drawn) ypos fr fg fb
        omega
      obtain ⟨h1, h2⟩ := ih (draw_pixel_x buf (xpos + drawn) _) (drawn + 1)
        (draw_pixel_x_bytes _ _ _ hb hc) (by omega)
      exact ⟨h1, by rw [h2, nibbleAt_draw_other _ _ _ _ hb hc (by omega)]⟩
    · split
      · have hc : dither_acep7 (xpos + drawn) ypos br bg bb < 16 := by
          have := dither_acep7_lt (xpos + drawn) ypos br bg bb
          omega
        obtain ⟨h1, h2⟩ := ih (draw_pixel_x buf (xpos + drawn) _) (drawn + 1)
          (draw_pixel_x_bytes _ _ _ hb hc) (by omega)
        exact ⟨h1, by rw [h2, nibbleAt_draw_other _ _ _ _ hb hc (by omega)]⟩
      · exact ⟨hb, rfl⟩

/-- Unpacking the bounding-box test of draw_x. -/
theorem coversB_iff (item : BaseDisplayItem) (xpos ypos : Nat) :
    coversB item xpos ypos = true ↔
      item.x ≤ (xpos : ℤ) ∧ (xpos : ℤ) < item.x + item.width
      ∧ item.y ≤ (ypos : ℤ) ∧ (ypos : ℤ) < item.y + item.height := by
  unfold coversB
  simp only [decide_eq_true_eq]
  push_neg
  omega

/-- For an on-screen column, find_max_line_len is at least 1: the screen
residue is positive and every contributing item distance is positive. -/
theorem one_le_fmll (items : List BaseDisplayItem) (xpos ypos : Nat) (hx : xpos < acepWidth) :
    1 ≤ find_max_line_len items xpos ypos := by
  unfold find_max_line_len
  have H : ∀ (l : List BaseDisplayItem) (a : ℤ), 1 ≤ a →
      1 ≤ l.foldl (fun line_len item =>
        if (xpos : ℤ) < item.x ∧ (ypos : ℤ) ≥ item.y ∧ (ypos : ℤ) < item.y + item.height then
          if line_len > item.x - (xpos : ℤ) then item.x - (xpos : ℤ) else line_len
        else line_len) a := by
    intro l
    induction l with
    | nil => intro a ha; simpa using ha
    | cons it rest ih =>
      intro a ha
      simp only [List.foldl_cons]
      apply ih
      split_ifs with h1 h2 <;> omega
  apply H
  simp only [acepWidth] at hx ⊢
  omega

/-- A rect run with nonzero fuel draws its first pixel at xpos. -/
theorem drawRectLoop_run (r g b : Nat) (xpos ypos : Nat) (fuel : Nat) (buf : Buf)
    (hb : ∀ i, buf i < 256) (hfuel : fuel ≠ 0) (hx : xpos < acepWidth) :
    (drawRectLoop r g b xpos ypos fuel buf 0).2 ≠ 0
    ∧ nibbleAt (drawRectLoop r g b xpos ypos fuel buf 0).1 xpos
      = dither_acep7 xpos ypos r g b
    ∧ ∀ i, (drawRectLoop r g b xpos ypos fuel buf 0).1 i < 256 := by
  cases fuel with
  | zero => exact absurd rfl hfuel
  | succ f =>
    simp only [drawRectLoop, Nat.add_zero, Nat.zero_add, Nat.cast_zero, add_zero]
    generalize hC : dither_acep7 xpos ypos r g b = C
    have hcd : C < 16 := by
      rw [← hC]
      have := dither_acep7_lt xpos ypos r g b
      omega
    obtain ⟨h1, h2⟩ := drawRectLoop_preserve r g b xpos ypos f (draw_pixel_x buf xpos C) 1
      (draw_pixel_x_bytes _ _ _ hb hcd) (le_refl 1)
    have hm := drawRectLoop_mono r g b xpos ypos f (draw_pixel_x buf xpos C) 1
    exact ⟨by omega, by rw [h2, nibbleAt_draw_self _ _ _ hb hcd (le_of_lt hx)], h1⟩

/-- An image run with nonzero fuel whose first source pixel has nonzero
alpha draws that pixel at xpos. -/
theorem drawImageLoop_run_opaque (pix : ℤ → Nat) (baseOff : ℤ) (vb : Bool) (br bg bb : Nat)
    (xpos ypos : Nat) (fuel : Nat) (buf : Buf) (hb : ∀ i, buf i < 256) (hfuel : fuel ≠ 0)
    (hx : xpos < acepWidth) (hpx : pix baseOff &&& 0xFF ≠ 0) :
    (drawImageLoop pix baseOff vb br bg bb xpos ypos fuel buf 0).2 ≠ 0
    ∧ nibbleAt (drawImageLoop pix baseOff vb br bg bb xpos ypos fuel buf 0).1 xpos
      = dither_acep7 xpos ypos ((pix baseOff >>> 24) % 256)
          ((pix baseOff >>> 16) &&& 0xFF)
          ((pix baseOff >>> 8) &&& 0xFF)
    ∧ ∀ i, (drawImageLoop pix baseOff vb br bg bb xpos ypos fuel buf 0).1 i < 256 := by
  cases fuel with
  | zero => exact absurd rfl hfuel
  | succ f =>
    simp only [drawImageLoop, Nat.add_zero, Nat.zero_add, Nat.cast_zero, add_zero]
    rw [if_pos hpx]
    generalize hC : dither_acep7 xpos ypos ((pix baseOff >>> 24) % 256)
      ((pix baseOff >>> 16) &&& 0xFF)
      ((pix baseOff >>> 8) &&& 0xFF) = C
    have hcd : C < 16 := by
      rw [← hC]
      have := dither_acep7_lt xpos ypos ((pix baseOff >>> 24) % 256)
        ((pix baseOff >>> 16) &&& 0xFF)
        ((pix baseOff >>> 8) &&& 0xFF)
      omega
    obtain ⟨h1, h2⟩ := drawImageLoop_preserve pix baseOff vb br bg bb xpos ypos f
      (draw_pixel_x buf xpos C) 1 (draw_pixel_x_bytes _ _ _ hb hcd) (le_refl 1)
    have hm := drawImageLoop_mono pix baseOff vb br bg bb xpos ypos f
      (draw_pixel_x buf xpos C) 1
    exact ⟨by omega, by rw [h2, nibbleAt_draw_self _ _ _ hb hcd (le_of_lt hx)], h1⟩

/-- An image run with nonzero fuel whose first source pixel is transparent
but whose background is visible draws the background at xpos. -/
theorem drawImageLoop_run_bg (pix : ℤ → Nat) (baseOff : ℤ) (vb : Bool) (br bg bb : Nat)
    (xpos ypos : Nat) (fuel : Nat) (buf : Buf) (hb : ∀ i, buf i < 256) (hfuel : fuel ≠ 0)
    (hx : xpos < acepWidth) (hpx : ¬ pix baseOff &&& 0xFF ≠ 0)
    (hvb : vb = true) :
    (drawImageLoop pix baseOff vb br bg bb xpos ypos fuel buf 0).2 ≠ 0
    ∧ nibbleAt (drawImageLoop pix baseOff vb br bg bb xpos ypos fuel buf 0).1 xpos
      = dither_acep7 xpos ypos br bg bb
    ∧ ∀ i, (drawImageLoop pix baseOff vb br bg bb xpos ypos fuel buf 0).1 i < 256 := by
  subst hvb
  cases fuel with
  | zero => exact absurd rfl hfuel
  | succ f =>
    simp only [drawImageLoop, Nat.add_zero, Nat.zero_add, Nat.cast_zero, add_zero]
    rw [if_neg hpx, if_pos trivial]
    generalize hC : dither_acep7 xpos ypos br bg bb = C
    have hcd : C < 16 := by
      rw [← hC]
      have := dither_acep7_lt xpos ypos br bg bb
      omega
    obtain ⟨h1, h2⟩ := drawImageLoop_preserve pix baseOff true br bg bb xpos ypos f
      (draw_pixel_x buf xpos C) 1 (draw_pixel_x_bytes _ _ _ hb hcd) (le_refl 1)
    have hm := drawImageLoop_mono pix baseOff true br bg bb xpos ypos f
      (draw_pixel_x buf xpos C) 1
    exact ⟨by omega, by rw [h2, nibbleAt_draw_self _ _ _ hb hcd (le_of_lt hx)], h1⟩

/-- An image run whose first source pixel is transparent with no visible
background stops immediately without drawing. -/
theorem drawImageLoop_run_none (pix : ℤ → Nat) (baseOff : ℤ) (vb : Bool) (br bg bb : Nat)
    (xpos ypos : Nat) (fuel : Nat) (buf : Buf)
    (hpx : ¬ pix baseOff &&& 0xFF ≠ 0) (hvb : vb = false) :
    drawImageLoop pix baseOff vb br bg bb xpos ypos fuel buf 0 = (buf, 0) := by
  subst hvb
  cases fuel with
  | zero => rfl
  | succ f =>
    simp only [drawImageLoop, Nat.cast_zero, add_zero]
    rw [if_neg hpx]
    simp

/-- A scaled-image run with nonzero fuel whose first source pixel has
nonzero alpha draws that pixel at xpos. -/
theorem drawScaledLoop_run_opaque (pix : ℤ → Nat) (rowBase sourceX xScale j0 : ℤ) (vb : Bool)
    (br bg bb : Nat) (xpos ypos : Nat) (fuel : Nat) (curOff : ℤ) (buf : Buf)
    (hb : ∀ i, buf i < 256) (hfuel : fuel ≠ 0) (hx : xpos < acepWidth)
    (hpx : pix curOff &&& 0xFF ≠ 0) :
    (drawScaledLoop pix rowBase sourceX xScale j0 vb br bg bb xpos ypos fuel curOff buf 0).2 ≠ 0
    ∧ nibbleAt ((drawScaledLoop pix rowBase sourceX xScale j0 vb br bg bb xpos ypos fuel curOff
        buf 0).1) xpos
      = dither_acep7 xpos ypos ((pix curOff >>> 24) % 256) ((pix curOff >>> 16) &&& 0xFF)
          ((pix curOff >>> 8) &&& 0xFF)
    ∧ ∀ i, (drawScaledLoop pix rowBase sourceX xScale j0 vb br bg bb xpos ypos fuel curOff
        buf 0).1 i < 256 := by
  cases fuel with
  | zero => exact absurd rfl hfuel
  | succ f =>
    simp only [drawScaledLoop, Nat.add_zero, Nat.zero_add, Nat.cast_zero, add_zero]
    rw [if_pos hpx]
    generalize hC : dither_acep7 xpos ypos ((pix curOff >>> 24) % 256)
      ((pix curOff >>> 16) &&& 0xFF) ((pix curOff >>> 8) &&& 0xFF) = C
    have hcd : C < 16 := by
      rw [← hC]
      have := dither_acep7_lt xpos ypos ((pix curOff >>> 24) % 256)
        ((pix curOff >>> 16) &&& 0xFF) ((pix curOff >>> 8) &&& 0xFF)
      omega
    obtain ⟨h1, h2⟩ := drawScaledLoop_preserve pix rowBase sourceX xScale j0 vb br bg bb
      xpos ypos f (rowBase + sourceX + Int.tdiv j0 xScale)
      (draw_pixel_x buf xpos C) 1 (draw_pixel_x_bytes _ _ _ hb hcd) (le_refl 1)
    have hm := drawScaledLoop_mono pix rowBase sourceX xScale j0 vb br bg bb xpos ypos f
      (rowBase + sourceX + Int.tdiv j0 xScale)
      (draw_pixel_x buf xpos C) 1
    exact ⟨by omega, by rw [h2, nibbleAt_draw_self _ _ _ hb hcd (le_of_lt hx)], h1⟩

/-- A scaled-image run with nonzero fuel whose first source pixel is
transparent but whose background is visible draws the background. -/
theorem drawScaledLoop_run_bg (pix : ℤ → Nat) (rowBase sourceX xScale j0 : ℤ) (vb : Bool)
    (br bg bb : Nat) (xpos ypos : Nat) (fuel : Nat) (curOff : ℤ) (buf : Buf)
    (hb : ∀ i, buf i < 256) (hfuel : fuel ≠ 0) (hx : xpos < acepWidth)
    (hpx : ¬ pix curOff &&& 0xFF ≠ 0) (hvb : vb = true) :
    (drawScaledLoop pix rowBase sourceX xScale j0 vb br bg bb xpos ypos fuel curOff buf 0).2 ≠ 0
    ∧ nibbleAt ((drawScaledLoop pix rowBase sourceX xScale j0 vb br bg bb xpos ypos fuel curOff
        buf 0).1) xpos = dither_acep7 xpos ypos br bg bb
    ∧ ∀ i, (drawScaledLoop pix rowBase sourceX xScale j0 vb br bg bb xpos ypos fuel curOff
        buf 0).1 i < 256 := by
  subst hvb
  cases fuel with
  | zero => exact absurd rfl hfuel
  | succ f =>
    simp only [drawScaledLoop, Nat.add_zero, Nat.zero_add, Nat.cast_zero, add_zero]
    rw [if_neg hpx, if_pos trivial]
    generalize hC : dither_acep7 xpos ypos br bg bb = C
    have hcd : C < 16 := by
      rw [← hC]
      have := dither_acep7_lt xpos ypos br bg bb
      omega
    obtain ⟨h1, h2⟩ := drawScaledLoop_preserve pix rowBase sourceX xScale j0 true br bg bb
      xpos ypos f (rowBase + sourceX + Int.tdiv j0 xScale)
      (draw_pixel_x buf xpos C) 1 (draw_pixel_x_bytes _ _ _ hb hcd) (le_refl 1)
    have hm := drawScaledLoop_mono pix rowBase sourceX xScale j0 true br bg bb xpos ypos f
      (rowBase + sourceX + Int.tdiv j0 xScale)
      (draw_pixel_x buf xpos C) 1
    exact ⟨by omega, by rw [h2, nibbleAt_draw_self _ _ _ hb hcd (le_of_lt hx)], h1⟩

/-- A scaled-image run whose first source pixel is transparent with no
visible background stops immediately without drawing. -/
theorem drawScaledLoop_run_none (pix : ℤ → Nat) (rowBase sourceX xScale j0 : ℤ) (vb : Bool)
    (br bg bb : Nat) (xpos ypos : Nat) (fuel : Nat) (curOff : ℤ) (buf : Buf)
    (hpx : ¬ pix curOff &&& 0xFF ≠ 0) (hvb : vb = false) :
    drawScaledLoop pix rowBase sourceX xScale j0 vb br bg bb xpos ypos fuel curOff buf 0
      = (buf, 0) := by
  subst hvb
  cases fuel with
  | zero => rfl
  | succ f =>
    simp only [drawScaledLoop, Nat.cast_zero, add_zero]
    rw [if_neg hpx]
    simp

/-- A scaled-image run with zero fuel (the source-clipped width excludes
the column) returns without drawing. -/
theorem drawScaledLoop_fuel_zero (pix : ℤ → Nat) (rowBase sourceX xScale j0 : ℤ) (vb : Bool)
    (br bg bb : Nat) (xpos ypos : Nat) (fuel : Nat) (curOff : ℤ) (buf : Buf) (drawn : Nat)
    (h : fuel = 0) :
    drawScaledLoop pix rowBase sourceX xScale j0 vb br bg bb xpos ypos fuel curOff buf drawn
      = (buf, drawn) := by
  subst h
  rfl

/-- A text run with nonzero fuel whose first glyph column is set draws the
foreground color at xpos. -/
theorem drawTextLoop_run_fg (font : ℤ → Nat) (text : ℤ → Nat) (j0 rowIdx : ℤ) (vb : Bool)
    (fr fg fb br bg bb : Nat) (xpos ypos : Nat) (fuel : Nat) (buf : Buf)
    (hb : ∀ i, buf i < 256) (hfuel : fuel ≠ 0) (hx : xpos < acepWidth)
    (hrow : font (((text (Int.tdiv j0 8) : ℤ)) * 16 + rowIdx)
      &&& (1 <<< (7 - Int.tmod j0 8).toNat) ≠ 0) :
    (drawTextLoop font text j0 rowIdx vb fr fg fb br bg bb xpos ypos fuel buf 0).2 ≠ 0
    ∧ nibbleAt ((drawTextLoop font text j0 rowIdx vb fr fg fb br bg bb xpos ypos fuel
        buf 0).1) xpos = dither_acep7 xpos ypos fr fg fb
    ∧ ∀ i, (drawTextLoop font text j0 rowIdx vb fr fg fb br bg bb xpos ypos fuel
        buf 0).1 i < 256 := by
  cases fuel with
  | zero => exact absurd rfl hfuel
  | succ f =>
    simp only [drawTextLoop, Nat.add_zero, Nat.zero_add, Nat.cast_zero, add_zero]
    rw [if_pos hrow]
    generalize hC : dither_acep7 xpos ypos fr fg fb = C
    have hcd : C < 16 := by
      rw [← hC]
      have := dither_acep7_lt xpos ypos fr fg fb
      omega
    obtain ⟨h1, h2⟩ := drawTextLoop_preserve font text j0 rowIdx vb fr fg fb br bg bb
      xpos ypos f (draw_pixel_x buf xpos C) 1 (draw_pixel_x_bytes _ _ _ hb hcd) (le_refl 1)
    have hm := drawTextLoop_mono font text j0 rowIdx vb fr fg fb br bg bb xpos ypos f
      (draw_pixel_x buf xpos C) 1
    exact ⟨by omega, by rw [h2, nibbleAt_draw_self _ _ _ hb hcd (le_of_lt hx)], h1⟩

/-- A text run with nonzero fuel whose first glyph column is clear but
whose background is visible draws the background at xpos. -/
theorem drawTextLoop_run_bg (font : ℤ → Nat) (text : ℤ → Nat) (j0 rowIdx : ℤ) (vb : Bool)
    (fr fg fb br bg bb : Nat) (xpos ypos : Nat) (fuel : Nat) (buf : Buf)
    (hb : ∀ i, buf i < 256) (hfuel : fuel ≠ 0) (hx : xpos < acepWidth)
    (hrow : ¬ font (((text (Int.tdiv j0 8) : ℤ)) * 16 + rowIdx)
      &&& (1 <<< (7 - Int.tmod j0 8).toNat) ≠ 0) (hvb : vb = true) :
    (drawTextLoop font text j0 rowIdx vb fr fg fb br bg bb xpos ypos fuel buf 0).2 ≠ 0
    ∧ nibbleAt ((drawTextLoop font text j0 rowIdx vb fr fg fb br bg bb xpos ypos fuel
        buf 0).1) xpos = dither_acep7 xpos ypos br bg bb
    ∧ ∀ i, (drawTextLoop font text j0 rowIdx vb fr fg fb br bg bb xpos ypos fuel
        buf 0).1 i < 256 := by
  subst hvb
  cases fuel with
  | zero => exact absurd rfl hfuel
  | succ f =>
    simp only [drawTextLoop, Nat.add_zero, Nat.zero_add, Nat.cast_zero, add_zero]
    rw [if_neg hrow, if_pos trivial]
    generalize hC : dither_acep7 xpos ypos br bg bb = C
    have hcd : C < 16 := by
      rw [← hC]
      have := dither_acep7_lt xpos ypos br bg bb
      omega
    obtain ⟨h1, h2⟩ := drawTextLoop_preserve font text j0 rowIdx true fr fg fb br bg bb
      xpos ypos f (draw_pixel_x buf xpos C) 1 (draw_pixel_x_bytes _ _ _ hb hcd) (le_refl 1)
    have hm := drawTextLoop_mono font text j0 rowIdx true fr fg fb br bg bb xpos ypos f
      (draw_pixel_x buf xpos C) 1
    exact ⟨by omega, by rw [h2, nibbleAt_draw_self _ _ _ hb hcd (le_of_lt hx)], h1⟩

/-- A text run whose first glyph column is clear with no visible background
stops immediately without drawing. -/
theorem drawTextLoop_run_none (font : ℤ → Nat) (text : ℤ → Nat) (j0 rowIdx : ℤ) (vb : Bool)
    (fr fg fb br bg bb : Nat) (xpos ypos : Nat) (fuel : Nat) (buf : Buf)
    (hrow : ¬ font (((text (Int.tdiv j0 8) : ℤ)) * 16 + rowIdx)
      &&& (1 <<< (7 - Int.tmod j0 8).toNat) ≠ 0) (hvb : vb = false) :
    drawTextLoop font text j0 rowIdx vb fr fg fb br bg bb xpos ypos fuel buf 0 = (buf, 0) := by
  subst hvb
  cases fuel with
  | zero => rfl
  | succ f =>
    simp only [drawTextLoop, Nat.cast_zero, add_zero]
    rw [if_neg hrow]
    simp

/-- When the per-item pixel specification produces a color at a covered
on-screen coordinate, the dispatched draw function reports a nonzero pixel
count and stores exactly that color as the nibble at xpos, keeping the
byte bound. -/
theorem drawPrim_some (font : ℤ → Nat) (buf : Buf) (xpos ypos : Nat) (mll : ℤ)
    (item : BaseDisplayItem) (c : Nat) (hb : ∀ i, buf i < 256)
    (hcov : coversB item xpos ypos = true) (hmll : 1 ≤ mll) (hx : xpos < acepWidth)
    (hip : itemPixelAt font xpos ypos item = some c) :
    (drawPrim font buf xpos ypos mll item).2 ≠ 0
    ∧ nibbleAt (drawPrim font buf xpos ypos mll item).1 xpos = c
    ∧ ∀ i, (drawPrim font buf xpos ypos mll item).1 i < 256 := by
  obtain ⟨hcx1, hcx2, hcy1, hcy2⟩ := (coversB_iff item xpos ypos).mp hcov
  rw [itemPixelAt, if_pos hcov] at hip
  obtain ⟨p, ix, iy, iw, ihh, ibr, ipix, iiw, iih, isx, isy, ixs, iys, ifg, itx⟩ := item
  dsimp only at hcx1 hcx2 hcy1 hcy2
  cases p with
  | Invalid => exact absurd hip (by simp)
  | Rect =>
    replace hip := Option.some.inj hip
    rw [← hip]
    simp only [drawPrim, draw_rect_x]
    exact drawRectLoop_run _ _ _ xpos ypos _ buf hb (by split_ifs <;> omega) hx
  | Image =>
    simp only [drawPrim, draw_image_x]
    by_cases hpx : ipix (((ypos : ℤ) - iy) * iw + ((xpos : ℤ) - ix)) &&& 0xFF ≠ 0
    · rw [if_pos hpx] at hip
      replace hip := Option.some.inj hip
      rw [← hip]
      exact drawImageLoop_run_opaque _ _ _ _ _ _ xpos ypos _ buf hb
        (by split_ifs <;> omega) hx hpx
    · rw [if_neg hpx] at hip
      by_cases hbr : ibr ≠ 0
      · rw [if_pos hbr] at hip
        replace hip := Option.some.inj hip
        rw [← hip]
        have hres := drawImageLoop_run_bg ipix (((ypos : ℤ) - iy) * iw + ((xpos : ℤ) - ix))
          (decide (ibr ≠ 0)) (if ibr ≠ 0 then (ibr >>> 24) &&& 0xFF else 0)
          (if ibr ≠ 0 then (ibr >>> 16) &&& 0xFF else 0)
          (if ibr ≠ 0 then (ibr >>> 8) &&& 0xFF else 0) xpos ypos
          ((if (iw : ℤ) > ((xpos : ℤ) - ix) + mll then ((xpos : ℤ) - ix) + mll else iw)
            - ((xpos : ℤ) - ix)).toNat buf hb (by split_ifs <;> omega) hx hpx
          (by simp [hbr])
        simpa only [if_pos hbr] using hres
      · rw [if_neg hbr] at hip
        exact absurd hip (by simp)
  | ScaledCroppedImage =>
    simp only [drawPrim, draw_scaled_cropped_img_x]
    have hw1 : ((xpos : ℤ) - ix)
        < (if isx + Int.tdiv iw ixs > iiw then (iiw - isx) * ixs else iw) := by
      rcases Decidable.em (((xpos : ℤ) - ix)
          < (if isx + Int.tdiv iw ixs > iiw then (iiw - isx) * ixs else iw)) with h | h
      · exact h
      · rw [if_neg h] at hip
        exact absurd hip (by simp)
    rw [if_pos hw1] at hip
    by_cases hpx : ipix ((isy + Int.tdiv ((ypos : ℤ) - iy) iys) * iiw + isx
        + Int.tdiv ((xpos : ℤ) - ix) ixs) &&& 0xFF ≠ 0
    · rw [if_pos hpx] at hip
      replace hip := Option.some.inj hip
      rw [← hip]
      exact drawScaledLoop_run_opaque _ _ _ _ _ _ _ _ _ xpos ypos _ _ buf hb
        (by split_ifs <;> omega) hx hpx
    · rw [if_neg hpx] at hip
      by_cases hbr : ibr ≠ 0
      · rw [if_pos hbr] at hip
        replace hip := Option.some.inj hip
        rw [← hip]
        have hres := drawScaledLoop_run_bg ipix ((isy + Int.tdiv ((ypos : ℤ) - iy) iys) * iiw)
          isx ixs ((xpos : ℤ) - ix) (decide (ibr ≠ 0))
          (if ibr ≠ 0 then (ibr >>> 24) &&& 0xFF else 0)
          (if ibr ≠ 0 then (ibr >>> 16) &&& 0xFF else 0)
          (if ibr ≠ 0 then (ibr >>> 8) &&& 0xFF else 0) xpos ypos
          (((if (if isx + Int.tdiv iw ixs > iiw then (iiw - isx) * ixs else iw)
              > ((xpos : ℤ) - ix) + mll then ((xpos : ℤ) - ix) + mll
             else (if isx + Int.tdiv iw ixs > iiw then (iiw - isx) * ixs else iw))
            - ((xpos : ℤ) - ix)).toNat)
          ((isy + Int.tdiv ((ypos : ℤ) - iy) iys) * iiw + isx
            + Int.tdiv ((xpos : ℤ) - ix) ixs) buf hb (by split_ifs <;> omega) hx hpx
          (by simp [hbr])
        simpa only [if_pos hbr] using hres
      · rw [if_neg hbr] at hip
        exact absurd hip (by simp)
  | Text =>
    simp only [drawPrim, draw_text_x]
    by_cases hrow : font (((itx (Int.tdiv ((xpos : ℤ) - ix) 8)) : ℤ) * 16 + ((ypos : ℤ) - iy))
        &&& (1 <<< (7 - Int.tmod ((xpos : ℤ) - ix) 8).toNat) ≠ 0
    · rw [if_pos hrow] at hip
      replace hip := Option.some.inj hip
      rw [← hip]
      exact drawTextLoop_run_fg _ _ _ _ _ _ _ _ _ _ _ xpos ypos _ buf hb
        (by split_ifs <;> omega) hx hrow
    · rw [if_neg hrow] at hip
      by_cases hbr : ibr ≠ 0
      · rw [if_pos hbr] at hip
        replace hip := Option.some.inj hip
        rw [← hip]
        have hres := drawTextLoop_run_bg font itx ((xpos : ℤ) - ix) ((ypos : ℤ) - iy)
          (decide (ibr ≠ 0)) ((ifg >>> 24) &&& 0xFF) ((ifg >>> 16) &&& 0xFF)
          ((ifg >>> 8) &&& 0xFF) (if ibr ≠ 0 then (ibr >>> 24) &&& 0xFF else 0)
          (if ibr ≠ 0 then (ibr >>> 16) &&& 0xFF else 0)
          (if ibr ≠ 0 then (ibr >>> 8) &&& 0xFF else 0) xpos ypos
          ((if (iw : ℤ) > ((xpos : ℤ) - ix) + mll then ((xpos : ℤ) - ix) + mll else iw)
            - ((xpos : ℤ) - ix)).toNat buf hb (by split_ifs <;> omega) hx hrow
          (by simp [hbr])
        simpa only [if_pos hbr] using hres
      · rw [if_neg hbr] at hip
        exact absurd hip (by simp)

/-- When the per-item pixel specification reports no pixel at a covered
on-screen coordinate, the dispatched draw function returns the buffer
untouched with a zero pixel count. -/
theorem drawPrim_none (font : ℤ → Nat) (buf : Buf) (xpos ypos : Nat) (mll : ℤ)
    (item : BaseDisplayItem) (hcov : coversB item xpos ypos = true)
    (hip : itemPixelAt font xpos ypos item = none) :
    drawPrim font buf xpos ypos mll item = (buf, 0) := by
  rw [itemPixelAt, if_pos hcov] at hip
  obtain ⟨p, ix, iy, iw, ihh, ibr, ipix, iiw, iih, isx, isy, ixs, iys, ifg, itx⟩ := item
  cases p with
  | Invalid => rfl
  | Rect => exact absurd hip (by simp)
  | Image =>
    simp only [drawPrim, draw_image_x]
    by_cases hpx : ipix (((ypos : ℤ) - iy) * iw + ((xpos : ℤ) - ix)) &&& 0xFF ≠ 0
    · rw [if_pos hpx] at hip
      exact absurd hip (by simp)
    · rw [if_neg hpx] at hip
      by_cases hbr : ibr ≠ 0
      · rw [if_pos hbr] at hip
        exact absurd hip (by simp)
      · exact drawImageLoop_run_none _ _ _ _ _ _ xpos ypos _ buf hpx
          (by simp at hbr; simp [hbr])
  | ScaledCroppedImage =>
    simp only [drawPrim, draw_scaled_cropped_img_x]
    by_cases hw1 : ((xpos : ℤ) - ix)
        < (if isx + Int.tdiv iw ixs > iiw then (iiw - isx) * ixs else iw)
    · rw [if_pos hw1] at hip
      by_cases hpx : ipix ((isy + Int.tdiv ((ypos : ℤ) - iy) iys) * iiw + isx
          + Int.tdiv ((xpos : ℤ) - ix) ixs) &&& 0xFF ≠ 0
      · rw [if_pos hpx] at hip
        exact absurd hip (by simp)
      · rw [if_neg hpx] at hip
        by_cases hbr : ibr ≠ 0
        · rw [if_pos hbr] at hip
          exact absurd hip (by simp)
        · exact drawScaledLoop_run_none _ _ _ _ _ _ _ _ _ xpos ypos _ _ buf hpx
            (by simp at hbr; simp [hbr])
    · exact drawScaledLoop_fuel_zero _ _ _ _ _ _ _ _ _ xpos ypos _ _ buf 0
        (by split_ifs <;> omega)
  | Text =>
    simp only [drawPrim, draw_text_x]
    by_cases hrow : font (((itx (Int.tdiv ((xpos : ℤ) - ix) 8)) : ℤ) * 16 + ((ypos : ℤ) - iy))
        &&& (1 <<< (7 - Int.tmod ((xpos : ℤ) - ix) 8).toNat) ≠ 0
    · rw [if_pos hrow] at hip
      exact absurd hip (by simp)
    · rw [if_neg hrow] at hip
      by_cases hbr : ibr ≠ 0
      · rw [if_pos hbr] at hip
        exact absurd hip (by simp)
      · exact drawTextLoop_run_none _ _ _ _ _ _ _ _ _ _ _ xpos ypos _ buf hrow
          (by simp at hbr; simp [hbr])

/-- The item scan of draw_x resolves the nibble at xpos to the first listed
covering item that produces a pixel there, regardless of the already-seen
prefix and of the below flag, falling back to the existing buffer content. -/
theorem drawXAux_spec (font : ℤ → Nat) (xpos ypos : Nat) (hx : xpos < acepWidth) :
    ∀ (rest seen : List BaseDisplayItem) (below : Bool) (buf : Buf), (∀ i, buf i < 256) →
      nibbleAt ((drawXAux font xpos ypos seen rest below buf).1) xpos
        = (rest.findSome? (itemPixelAt font xpos ypos)).getD (nibbleAt buf xpos) := by
  intro rest
  induction rest with
  | nil =>
    intro seen below buf hb
    simp [drawXAux]
  | cons item rest ih =>
    intro seen below buf hb
    by_cases hcov : coversB item xpos ypos = true
    · have hmll : (1 : ℤ) ≤ (if below then 1 else find_max_line_len seen xpos ypos) := by
        split
        · omega
        · exact one_le_fmll seen xpos ypos hx
      cases hip : itemPixelAt font xpos ypos item with
      | some c =>
        obtain ⟨hne, hnib, hbytes⟩ := drawPrim_some font buf xpos ypos
          (if below then 1 else find_max_line_len seen xpos ypos) item c hb hcov hmll hx hip
        simp only [drawXAux]
        rw [if_pos hcov, if_pos hne, List.findSome?_cons, hip]
        exact hnib
      | none =>
        have hps := drawPrim_none font buf xpos ypos
          (if below then 1 else find_max_line_len seen xpos ypos) item hcov hip
        simp only [drawXAux]
        rw [if_pos hcov, hps]
        rw [if_neg (show ¬ ((buf, 0).2 ≠ 0) by simp)]
        rw [List.findSome?_cons, hip]
        exact ih (seen ++ [item]) true buf hb
    · have hnone : itemPixelAt font xpos ypos item = none := by
        rw [itemPixelAt, if_neg hcov]
      simp only [drawXAux]
      rw [if_neg hcov, List.findSome?_cons, hnone]
      exact ih (seen ++ [item]) below buf hb

/-- The item scan of draw_x always reports at least one drawn pixel: a
drawing branch that fires returns its nonzero count, and the fallthrough
at the end of the item list returns 1. -/
theorem drawXAux_pos (font : ℤ → Nat) (xpos ypos : Nat) :
    ∀ (rest seen : List BaseDisplayItem) (below : Bool) (buf : Buf),
      1 ≤ (drawXAux font xpos ypos seen rest below buf).2 := by
  intro rest
  induction rest with
  | nil =>
    intro seen below buf
    simp [drawXAux]
  | cons item rest ih =>
    intro seen below buf
    simp only [drawXAux]
    split
    · split <;> split
      all_goals first
        | omega
        | exact ih _ _ _
    · exact ih _ _ _

/-- The scanline loop of do_update finishes (the fuel is never exhausted)
whenever the fuel is at least the remaining width, and makes at most one
draw_x call per remaining pixel, because each call advances xpos by at
least 1. -/
theorem rasterLineAux_term (font : ℤ → Nat) (items : List BaseDisplayItem) (ypos : Nat) :
    ∀ (fuel : Nat) (buf : Buf) (xpos : Nat), acepWidth ≤ xpos + fuel →
      (rasterLineAux font items ypos fuel buf xpos).2.2 = true
      ∧ (rasterLineAux font items ypos fuel buf xpos).2.1 ≤ acepWidth - xpos := by
  intro fuel
  induction fuel with
  | zero =>
    intro buf xpos h
    rw [rasterLineAux, if_neg (by omega)]
    exact ⟨rfl, by simp⟩
  | succ fuel ih =>
    intro buf xpos h
    by_cases hx : xpos < acepWidth
    · rw [rasterLineAux, if_pos hx]
      dsimp only
      have hd : 1 ≤ (draw_x font buf xpos ypos items).2 :=
        drawXAux_pos font xpos ypos items [] false buf
      have hrec := ih ((draw_x font buf xpos ypos items).1)
        (xpos + (draw_x font buf xpos ypos items).2) (by omega)
      exact ⟨hrec.1, by have h2 := hrec.2; omega⟩
    · rw [rasterLineAux, if_neg hx]
      exact ⟨rfl, by simp⟩

/-- Witness for Claim C8: the green palette entry (index 2) quantizes to 2
at coordinate (0, 1) where the Bayer value is 8, and on the distance list
[5, 3, 3] the scan stops on a valid index. -/
theorem claim8_witness :
    bayerM (0 % 4) (1 % 4) = 8
    ∧ dither_acep7 0 1 (acepColors.getD 2 (0, 0, 0)).1 (acepColors.getD 2 (0, 0, 0)).2.1
        (acepColors.getD 2 (0, 0, 0)).2.2 = 2
    ∧ minScan [(5 : ℚ), 3, 3] cINT_MAX 0 0 < ([(5 : ℚ), 3, 3]).length :=
  ⟨by decide,
   claim8_quantizer_identity_and_ties.1 0 1 2 (by decide) (by decide),
   (claim8_quantizer_identity_and_ties.2 [5, 3, 3]
     (by intro d hd; fin_cases hd <;> norm_num [cINT_MAX]) (by simp)).1⟩

/-- Claim C1: compositor first-covering-item priority with transparency
fallthrough.  For every display list and every in-bounds pixel column, the
nibble draw_x leaves at xpos equals the pixel of the first item in list
order that covers (xpos, ypos) and actually produces an opaque or
background-composited pixel there; items listed later never override it,
a fully transparent covering item is skipped in favour of the next
covering item, and when no item produces a pixel the existing line-buffer
content is kept. -/
theorem claim1_first_covering_item_priority (font : ℤ → Nat) (buf : Buf)
    (xpos ypos : Nat) (items : List BaseDisplayItem)
    (hb : ∀ i, buf i < 256) (hx : xpos < acepWidth) :
    nibbleAt ((draw_x font buf xpos ypos items).1) xpos
      = (items.findSome? (itemPixelAt font xpos ypos)).getD (nibbleAt buf xpos) :=
  drawXAux_spec font xpos ypos hx items [] false buf hb

/-- Witness for Claim C1: a fully transparent image listed before an opaque
green rectangle over a buffer memset to 0x11 - at pixel (0, 0) the
compositor falls through the image to the rectangle. -/
theorem claim1_witness :
    0 < acepWidth
    ∧ nibbleAt ((draw_x exFont0 exBuf0 0 0 [exImgTransparent, exRectGreen]).1) 0
        = (([exImgTransparent, exRectGreen]).findSome? (itemPixelAt exFont0 0 0)).getD
            (nibbleAt exBuf0 0) :=
  ⟨by decide,
   claim1_first_covering_item_priority exFont0 exBuf0 0 0 [exImgTransparent, exRectGreen]
     (fun i => by norm_num [exBuf0]) (by decide)⟩

/-- Claim C10: scanline-loop progress.  draw_x returns at least 1 for every
font, buffer, coordinate and items list (including the empty list, Invalid
items, and items whose box lies partly or wholly off-screen), and
consequently the inner rasterization loop of do_update, which advances
xpos by the returned count while xpos < acepWidth, runs to completion and
makes at most acepWidth draw_x calls per scanline. -/
theorem claim10_scanline_progress :
    (∀ (font : ℤ → Nat) (buf : Buf) (xpos ypos : Nat) (items : List BaseDisplayItem),
        1 ≤ (draw_x font buf xpos ypos items).2)
    ∧ ∀ (font : ℤ → Nat) (items : List BaseDisplayItem) (ypos : Nat) (buf : Buf),
        (rasterLine font items ypos buf).2.2 = true
        ∧ (rasterLine font items ypos buf).2.1 ≤ acepWidth := by
  constructor
  · intro font buf xpos ypos items
    exact drawXAux_pos font xpos ypos items [] false buf
  · intro font items ypos buf
    have h := rasterLineAux_term font items ypos acepWidth buf 0 (by omega)
    simp only [rasterLine]
    exact ⟨h.1, by have h2 := h.2; omega⟩

end Acep

end AtomGL


